import Mathlib

/-!
Verification development for the PhotoDupeDrop near-duplicate photo pipeline.

The definitions below are shallow embeddings of the pipeline's source code:
* the fingerprint hex packing and hash generation of the native Kotlin module
  (`PHashModule.generateHashFromDCT`) and of the web fallback
  (`generateHashFromDCT` in the pHash TypeScript utility),
* the Hamming-distance scorer of both paths,
* the match-deduplication engine (`src/utils/matchDeduplication.ts`),
* the time-windowed candidate generator (`findMatchesInBatch`).

JavaScript/Kotlin floating point `number`/`Double` data is modelled as `ℚ`;
all arithmetic appearing in the translated code paths is exact in the source
ranges of interest (small integers and ratios of list sizes).
-/

namespace PhotoDupeDrop

/-! ## Fingerprint hex packing (native `generateHashFromDCT` and web fallback) -/

/-- Value of a bit list read as a big-endian binary numeral, as obtained by
`binaryChunk.toInt(2)` in Kotlin and `parseInt(binaryChunk, 2)` in the web path. -/
def bitsVal (bs : List Bool) : ℕ := bs.foldl (fun acc b => 2 * acc + b.toNat) 0

/-- Split a bit string into 4-bit groups in order; a final group of fewer than
four bits is kept short. This mirrors the chunking loops of both hash
generators (`substring(i, min(i+4, length))` / `substr(i, 4)`). -/
def toNibbles : List Bool → List (List Bool)
  | [] => []
  | a :: b :: c :: d :: rest => [a, b, c, d] :: toNibbles rest
  | rest => [rest]

/-- Uppercase hexadecimal digit for a value below 16. Both sources emit a
lowercase digit via `toString(16)` and uppercase the final string; emitting the
uppercase digit directly is the composition of those two steps. -/
def hexDigitChar (n : ℕ) : Char := "0123456789ABCDEF".data.getD n '0'

/-- Kotlin packing of one chunk: the chunk is right-padded with the character
`'0'` to four bits before conversion (`padEnd(4, '0')`). -/
def nibbleValPadded (chunk : List Bool) : ℕ :=
  bitsVal (chunk ++ List.replicate (4 - chunk.length) false)

/-- Web-fallback packing of one chunk: the chunk is converted as-is
(`parseInt(binaryChunk, 2)`, no padding), so a short final chunk is read as a
narrower binary numeral. -/
def nibbleValRaw (chunk : List Bool) : ℕ := bitsVal chunk

/-- Binary-to-hex conversion of the native Kotlin path. -/
def binaryToHexNative (bits : List Bool) : String :=
  String.mk ((toNibbles bits).map (fun c => hexDigitChar (nibbleValPadded c)))

/-- Binary-to-hex conversion of the web fallback path. -/
def binaryToHexWeb (bits : List Bool) : String :=
  String.mk ((toNibbles bits).map (fun c => hexDigitChar (nibbleValRaw c)))

/-! ## Hash generation from a DCT coefficient matrix

Both sources compute the 63-bit threshold pattern with textually identical
steps (collect the top-left 8×8 block minus the DC term in row-major order,
sort ascending, take the value at index `floor(n/2)` as median, emit one bit
per coefficient by strict comparison against the median); the single
`hashBitsOfDCT` below is that common text. The two paths then diverge only in
the binary-to-hex packing. -/

/-- Row-major top-left 8×8 block of a coefficient matrix, excluding the DC
term at (0,0): the `coefficients` list built by both `generateHashFromDCT`
implementations. -/
def collectCoeffs (dct : List (List ℚ)) : List ℚ :=
  ((List.range 8).map (fun i =>
    (List.range 8).filterMap (fun j =>
      if i = 0 ∧ j = 0 then none else some ((dct.getD i []).getD j 0)))).flatten

/-- Stable insertion into an ascending-sorted list of rationals. -/
def insertRatAsc (x : ℚ) : List ℚ → List ℚ
  | [] => [x]
  | y :: ys => if x ≤ y then x :: y :: ys else y :: insertRatAsc x ys

/-- Ascending sort of rationals, modelling Kotlin `sorted()` and the web
path's `sort((a, b) => a - b)`. -/
def sortRatAsc : List ℚ → List ℚ
  | [] => []
  | x :: xs => insertRatAsc x (sortRatAsc xs)

/-- The 63-bit threshold pattern both hash generators compute from the DCT
coefficients: bit i is 1 exactly when coefficient i strictly exceeds the
upper median (index `floor(n/2)` of the ascending sort). -/
def hashBitsOfDCT (dct : List (List ℚ)) : List Bool :=
  let coefficients := collectCoeffs dct
  let sorted := sortRatAsc coefficients
  let median := sorted.getD (sorted.length / 2) 0
  coefficients.map (fun c => decide (median < c))

/-- Hash generation of the native Kotlin path (`PHashModule.generateHashFromDCT`). -/
def generateHashFromDCTNative (dct : List (List ℚ)) : String :=
  binaryToHexNative (hashBitsOfDCT dct)

/-- Hash generation of the web fallback path (`generateHashFromDCT` in the
pHash TypeScript utility). -/
def generateHashFromDCTWeb (dct : List (List ℚ)) : String :=
  binaryToHexWeb (hashBitsOfDCT dct)

/-! ## Hamming distance (similarity scorer) -/

/-- Failure conditions of the scorer: a length mismatch between the two hex
strings, or a character that is not a hexadecimal digit. -/
inductive HashError where
  | lengthMismatch
  | badDigit
deriving DecidableEq

deriving instance DecidableEq for Except

/-- Value of a hexadecimal digit character, as parsed by Kotlin
`toInt(16)` and JavaScript `parseInt(c, 16)`. -/
def hexVal (c : Char) : Option ℕ :=
  if '0' ≤ c ∧ c ≤ '9' then some (c.toNat - '0'.toNat)
  else if 'a' ≤ c ∧ c ≤ 'f' then some (c.toNat - 'a'.toNat + 10)
  else if 'A' ≤ c ∧ c ≤ 'F' then some (c.toNat - 'A'.toNat + 10)
  else none

/-- Population count of a 4-bit value: unrolled form of the source's
shift-and-mask loop (`while xor != 0 { distance += xor and 1; xor = xor shr 1 }`),
which runs at most four iterations on values below 16. -/
def popCount4 (n : ℕ) : ℕ := n % 2 + n / 2 % 2 + n / 4 % 2 + n / 8 % 2

/-- Per-character scan of the Kotlin `hammingDistance` loop: parse each pair of
characters as hex digits, XOR, and accumulate popcounts. -/
def hammingChars : List Char → List Char → Except HashError ℕ
  | [], [] => Except.ok 0
  | c1 :: t1, c2 :: t2 =>
    match hexVal c1, hexVal c2 with
    | some v1, some v2 => (hammingChars t1 t2).map (fun d => popCount4 (v1 ^^^ v2) + d)
    | _, _ => Except.error HashError.badDigit
  | _, _ => Except.error HashError.lengthMismatch

/-- Kotlin `hammingDistance`: throw on unequal lengths, then sum per-digit XOR
popcounts; a non-hex character surfaces as `badDigit` (Kotlin
NumberFormatException from `toInt(16)`). -/
def hammingDistance (h1 h2 : String) : Except HashError ℕ :=
  if h1.length = h2.length then hammingChars h1.data h2.data
  else Except.error HashError.lengthMismatch

/-- Digit value used by the web fallback loop: `parseInt` yields NaN on a
non-hex character and JavaScript bitwise XOR coerces NaN to 0, so a bad digit
participates as the value 0 instead of failing. -/
def jsDigitVal (c : Char) : ℕ := (hexVal c).getD 0

/-- The JavaScript fallback branch of `calculateHammingDistance`: same length
guard, then a left-to-right accumulation over the character pairs. -/
def calculateHammingDistanceJS (h1 h2 : String) : Except HashError ℕ :=
  if h1.length = h2.length then
    Except.ok ((List.zip h1.data h2.data).foldl
      (fun acc p => acc + popCount4 (jsDigitVal p.1 ^^^ jsDigitVal p.2)) 0)
  else Except.error HashError.lengthMismatch

/-- A string whose characters are all hexadecimal digits. -/
def isHexStr (s : String) : Bool := s.data.all (fun c => (hexVal c).isSome)

/-! ## Data model of the match pipeline (`matchDeduplication.ts`) -/

/-- The `PhotoWithHash` record of the TypeScript sources. -/
structure Photo where
  id : String
  uri : String
  filename : String
  creationTime : ℚ
  width : ℚ
  height : ℚ
  pHash : Option String
deriving DecidableEq

/-- Status of a match candidate. -/
inductive MatchStatus where
  | pending
  | approved
  | rejected
deriving DecidableEq

/-- A half-open pair of epoch-millisecond bounds; the source field `end` is a
reserved word here and is rendered as `stop`. -/
structure TimeWindow where
  start : ℚ
  stop : ℚ
deriving DecidableEq

/-- The `MatchResult` record of the TypeScript sources. -/
structure MatchResult where
  id : String
  photos : List Photo
  confidence : ℚ
  timeWindow : TimeWindow
  status : MatchStatus
  hammingDistance : ℚ
deriving DecidableEq

/-- The JavaScript `Set` of a candidate's photo ids
(`new Set(match.photos.map(p => p.id))`). -/
def photoIdSet (m : MatchResult) : Finset String := (m.photos.map Photo.id).toFinset

/-- `MatchDeduplicator.isSubsetMatch`: A is a subset of B if A's photo-id set
is strictly smaller and every id of A is also in B. -/
def isSubsetMatch (matchA matchB : MatchResult) : Bool :=
  if (photoIdSet matchB).card ≤ (photoIdSet matchA).card then false
  else decide (photoIdSet matchA ⊆ photoIdSet matchB)

/-- One iteration of the `removeSubsetMatches` loop: drop the current match if
it is a subset of an accepted one; otherwise evict accepted matches that are
subsets of it (the `splice` loop) and append it. -/
def subsetStep (filtered : List MatchResult) (currentMatch : MatchResult) : List MatchResult :=
  if filtered.any (fun accepted => isSubsetMatch currentMatch accepted) then filtered
  else (filtered.filter (fun a => !(isSubsetMatch a currentMatch))) ++ [currentMatch]

/-- `MatchDeduplicator.removeSubsetMatches`. -/
def removeSubsetMatches (ms : List MatchResult) : List MatchResult :=
  ms.foldl subsetStep []

/-- Code-unit lexicographic comparison of two character lists: the order
JavaScript's default `Array.prototype.sort` applies to the photo-id strings
(on code points below the surrogate range it coincides with the UTF-16
code-unit order). -/
def charListLeb : List Char → List Char → Bool
  | [], _ => true
  | _ :: _, [] => false
  | c1 :: t1, c2 :: t2 =>
    if c1.toNat < c2.toNat then true
    else if c2.toNat < c1.toNat then false
    else charListLeb t1 t2

/-- Comparison of photo-id strings by their character sequences. -/
def strLeb (a b : String) : Bool := charListLeb a.data b.data

/-- Stable insertion into an ascending-sorted list of strings. -/
def insertStrAsc (x : String) : List String → List String
  | [] => [x]
  | y :: ys => if strLeb x y then x :: y :: ys else y :: insertStrAsc x ys

/-- Ascending sort of strings, modelling JavaScript `Array.prototype.sort()`
(code-unit lexicographic, stable). -/
def sortStrAsc : List String → List String
  | [] => []
  | x :: xs => insertStrAsc x (sortStrAsc xs)

/-- `MatchDeduplicator.generatePairKey`: the sorted ids joined with a pipe. -/
def generatePairKey (photoIds : List String) : String :=
  String.intercalate "|" (sortStrAsc photoIds)

/-- Key of a candidate in `removeReciprocalMatches` (the ids are sorted there
and sorted again inside `generatePairKey`; sorting twice equals sorting once). -/
def pairKey (m : MatchResult) : String := generatePairKey (m.photos.map Photo.id)

/-- Loop of `removeReciprocalMatches` carrying the `processedPairs` set and the
accepted list. -/
def recipGo : List MatchResult → List String → List MatchResult → List MatchResult
  | [], _, filtered => filtered
  | m :: rest, processedPairs, filtered =>
    if pairKey m ∈ processedPairs then recipGo rest processedPairs filtered
    else recipGo rest (processedPairs ++ [pairKey m]) (filtered ++ [m])

/-- `MatchDeduplicator.removeReciprocalMatches`. -/
def removeReciprocalMatches (ms : List MatchResult) : List MatchResult :=
  recipGo ms [] []

/-- Modelled from the spec wording of Stage C, for comparison with the code:
"keep only the first candidate (in the Stage-B output order) per distinct
key". -/
def keepFirstPerKey : List MatchResult → List MatchResult
  | [] => []
  | m :: rest => m :: keepFirstPerKey (rest.filter (fun x => pairKey x ≠ pairKey m))
termination_by l => l.length
decreasing_by
  simp only [List.length_cons]
  exact Nat.lt_succ_of_le (List.length_filter_le _ _)

/-- `MatchDeduplicator.calculatePhotoOverlap`: Jaccard ratio of the photo-id
sets (0/0 in the degenerate all-empty case behaves like the source's NaN with
respect to every threshold comparison made of it: both fail). -/
def calculatePhotoOverlap (matchA matchB : MatchResult) : ℚ :=
  (((photoIdSet matchA) ∩ (photoIdSet matchB)).card : ℚ) /
    (((photoIdSet matchA) ∪ (photoIdSet matchB)).card : ℚ)

/-- `MatchDeduplicator.calculateTimeOverlap`. -/
def calculateTimeOverlap (matchA matchB : MatchResult) : ℚ :=
  let overlapStart := max matchA.timeWindow.start matchB.timeWindow.start
  let overlapEnd := min matchA.timeWindow.stop matchB.timeWindow.stop
  if overlapEnd ≤ overlapStart then 0
  else (overlapEnd - overlapStart) /
    (max matchA.timeWindow.stop matchB.timeWindow.stop -
      min matchA.timeWindow.start matchB.timeWindow.start)

/-- One iteration of the `removeTemporalOverlaps` loop: the current match is
dropped when some accepted match has photo overlap above 0.5 and positive time
overlap with it. -/
def temporalStep (filtered : List MatchResult) (currentMatch : MatchResult) : List MatchResult :=
  if filtered.any (fun e =>
      decide ((1:ℚ)/2 < calculatePhotoOverlap currentMatch e ∧
        0 < calculateTimeOverlap currentMatch e)) then filtered
  else filtered ++ [currentMatch]

/-- `MatchDeduplicator.removeTemporalOverlaps`. -/
def removeTemporalOverlaps (ms : List MatchResult) : List MatchResult :=
  ms.foldl temporalStep []

/-- Stable insertion for the descending-by-confidence sort
(`sort((a, b) => b.confidence - a.confidence)`, stable in JavaScript). -/
def insertConfDesc (m : MatchResult) : List MatchResult → List MatchResult
  | [] => [m]
  | x :: xs => if x.confidence ≤ m.confidence then m :: x :: xs else x :: insertConfDesc m xs

/-- Stable descending sort by confidence. -/
def sortByConfidenceDesc : List MatchResult → List MatchResult
  | [] => []
  | m :: ms => insertConfDesc m (sortByConfidenceDesc ms)

/-- `MatchDeduplicator.deduplicateMatches`: confidence sort, then subset,
reciprocal and temporal-overlap removal; lists of at most one element are
returned unchanged. -/
def deduplicateMatches (ms : List MatchResult) : List MatchResult :=
  if ms.length ≤ 1 then ms
  else removeTemporalOverlaps (removeReciprocalMatches
    (removeSubsetMatches (sortByConfidenceDesc ms)))

/-- Filter body of `MatchDeduplicator.validateAndCleanMatches`. -/
def validMatch (m : MatchResult) : Bool :=
  if m.photos.length = 2 ∧ m.confidence < 70 then false
  else if 25 < m.hammingDistance then false
  else if 24 * 60 * 60 * 1000 < m.timeWindow.stop - m.timeWindow.start then false
  else true

/-- `MatchDeduplicator.validateAndCleanMatches`. -/
def validateAndCleanMatches (ms : List MatchResult) : List MatchResult :=
  ms.filter validMatch

/-- Score used to pick a cluster representative
(`confidence * photos.length`). -/
def matchScore (m : MatchResult) : ℚ := m.confidence * m.photos.length

/-- The `reduce` body of `advancedDeduplication`: keep the current match only
when its score strictly exceeds the best one's. -/
def pickBetter (best current : MatchResult) : MatchResult :=
  if matchScore best < matchScore current then current else best

/-- Inner loop of `identifyPhotoClusters`: scan the full match list, adding to
the cluster every unprocessed match whose overlap with the cluster seed
exceeds 0.3, and marking it processed. -/
def innerScan (seed : MatchResult) :
    List MatchResult → List String → List MatchResult → List MatchResult × List String
  | [], processed, cluster => (cluster, processed)
  | other :: rest, processed, cluster =>
    if other.id ∈ processed then innerScan seed rest processed cluster
    else if (3:ℚ)/10 < calculatePhotoOverlap seed other then
      innerScan seed rest (processed ++ [other.id]) (cluster ++ [other])
    else innerScan seed rest processed cluster

/-- Outer loop of `identifyPhotoClusters`: each unprocessed match seeds a new
cluster built by `innerScan`. -/
def outerScan (all : List MatchResult) :
    List MatchResult → List String → List (List MatchResult) → List (List MatchResult)
  | [], _, clusters => clusters
  | m :: rest, processed, clusters =>
    if m.id ∈ processed then outerScan all rest processed clusters
    else
      let r := innerScan m all (processed ++ [m.id]) [m]
      outerScan all rest r.2 (clusters ++ [r.1])

/-- `MatchDeduplicator.identifyPhotoClusters`. -/
def identifyPhotoClusters (ms : List MatchResult) : List (List MatchResult) :=
  outerScan ms ms [] []

/-- Representative of a cluster: `reduce` with the first element as initial
accumulator. A singleton cluster yields its sole element, which also covers
the source's `cluster.length === 1` special case. -/
def bestRep : List MatchResult → List MatchResult
  | [] => []
  | h :: t => [t.foldl pickBetter h]

/-- `MatchDeduplicator.advancedDeduplication`: cluster, keep one
representative per cluster, and sort the result by confidence descending. -/
def advancedDeduplication (ms : List MatchResult) : List MatchResult :=
  if ms.length ≤ 1 then ms
  else sortByConfidenceDesc (((identifyPhotoClusters ms).map bestRep).flatten)

/-- Top-level `processMatchesWithDeduplication`. -/
def processMatchesWithDeduplication (rawMatches : List MatchResult) : List MatchResult :=
  advancedDeduplication (deduplicateMatches (validateAndCleanMatches rawMatches))

/-! ## Candidate generator (`findMatchesInBatch` in the search screen) -/

/-- JavaScript truthiness of the `pHash` field (`!photo.pHash` is true both
for a missing hash and for the empty string). -/
def hasHash (p : Photo) : Bool :=
  match p.pHash with
  | none => false
  | some s => decide (s ≠ "")

/-- One iteration of the neighbor scan for a seed photo: skip the seed itself
and photos without a hash, require the creation time inside the seed's
±15-minute window, and accept when the Hamming distance is at most 20; a
scorer failure skips only that pair. State: (matching photos, total distance,
valid comparisons). -/
def scanStep (newPhoto : Photo) (st : List Photo × ℚ × ℕ) (otherPhoto : Photo) :
    List Photo × ℚ × ℕ :=
  if otherPhoto.id = newPhoto.id ∨ hasHash otherPhoto = false then st
  else if newPhoto.creationTime - 15 * 60 * 1000 ≤ otherPhoto.creationTime ∧
      otherPhoto.creationTime ≤ newPhoto.creationTime + 15 * 60 * 1000 then
    match hammingDistance (newPhoto.pHash.getD "") (otherPhoto.pHash.getD "") with
    | Except.error _ => st
    | Except.ok d => if d ≤ 20 then (st.1 ++ [otherPhoto], st.2.1 + d, st.2.2 + 1) else st
  else st

/-- Stable insertion for the ascending-by-creation-time sort of a candidate's
photos (`sort((a, b) => a.creationTime - b.creationTime)`). -/
def insertTimeAsc (p : Photo) : List Photo → List Photo
  | [] => [p]
  | q :: qs => if p.creationTime ≤ q.creationTime then p :: q :: qs else q :: insertTimeAsc p qs

/-- Stable ascending sort of photos by creation time. -/
def sortPhotosAsc : List Photo → List Photo
  | [] => []
  | p :: ps => insertTimeAsc p (sortPhotosAsc ps)

/-- The k=3 confidence law of the batch matcher:
`Math.max(0, 100 - averageDistance * 3)`. -/
def confidenceFromDistance (avgDistance : ℚ) : ℚ := max 0 (100 - avgDistance * 3)

/-- Candidate produced by one `findMatchesInBatch` seed photo. `now` abstracts
the `Date.now()` suffix of the synthetic id. `none` is returned when the seed
has no usable hash or no neighbor qualifies. -/
def findMatchForPhoto (now : ℕ) (newPhoto : Photo) (allProcessedPhotos : List Photo) :
    Option MatchResult :=
  if hasHash newPhoto = false then none
  else
    let st := allProcessedPhotos.foldl (scanStep newPhoto) ([newPhoto], 0, 0)
    if 1 < st.1.length then
      let averageDistance := if 0 < st.2.2 then st.2.1 / (st.2.2 : ℚ) else 0
      some
        { id := "match-" ++ newPhoto.id ++ "-" ++ toString now
          photos := sortPhotosAsc st.1
          confidence := confidenceFromDistance averageDistance
          timeWindow :=
            { start := newPhoto.creationTime - 15 * 60 * 1000
              stop := newPhoto.creationTime + 15 * 60 * 1000 }
          status := MatchStatus.pending
          hammingDistance := averageDistance }
    else none

/-- The acceptance test one scan iteration applies to one other photo: not
the seed itself, usable hash, creation time inside the seed's ±15-minute
window, defined Hamming distance of at most 20. Returns the photo with its
distance when accepted. -/
def neighborCheck (newPhoto otherPhoto : Photo) : Option (Photo × ℕ) :=
  if otherPhoto.id = newPhoto.id ∨ hasHash otherPhoto = false then none
  else if newPhoto.creationTime - 15 * 60 * 1000 ≤ otherPhoto.creationTime ∧
      otherPhoto.creationTime ≤ newPhoto.creationTime + 15 * 60 * 1000 then
    match hammingDistance (newPhoto.pHash.getD "") (otherPhoto.pHash.getD "") with
    | Except.error _ => none
    | Except.ok d => if d ≤ 20 then some (otherPhoto, d) else none
  else none

/-- The (photo, distance) pairs the scan of `findMatchesInBatch` accepts for a
seed, in scan order. This names the selection the fold in `findMatchForPhoto`
performs, for stating what the emitted candidate's average is an average of. -/
def acceptedNeighbors (newPhoto : Photo) (allProcessedPhotos : List Photo) :
    List (Photo × ℕ) :=
  allProcessedPhotos.filterMap (neighborCheck newPhoto)

/-! ## Concrete instances used in the theorems below -/

/-- A DCT coefficient matrix whose only nonzero entry is at position (7,7):
the 63 collected coefficients are sixty-two zeros followed by a single one,
so the threshold pattern ends in the bits 0,0,1. -/
def sampleDCT : List (List ℚ) :=
  [[0, 0, 0, 0, 0, 0, 0, 0], [0, 0, 0, 0, 0, 0, 0, 0], [0, 0, 0, 0, 0, 0, 0, 0],
   [0, 0, 0, 0, 0, 0, 0, 0], [0, 0, 0, 0, 0, 0, 0, 0], [0, 0, 0, 0, 0, 0, 0, 0],
   [0, 0, 0, 0, 0, 0, 0, 0], [0, 0, 0, 0, 0, 0, 0, 1]]

/-- Concrete photo with a given id (creation time 0, no hash). -/
def mkPhoto (id : String) : Photo :=
  { id := id, uri := "", filename := "", creationTime := 0, width := 0, height := 0,
    pHash := none }

/-- Concrete photo with a given id, creation time and hash. -/
def mkPhotoH (id : String) (t : ℚ) (h : String) : Photo :=
  { id := id, uri := "", filename := "", creationTime := t, width := 0, height := 0,
    pHash := some h }

/-- Concrete match candidate with a degenerate time window. -/
def mkMatch (id : String) (photos : List Photo) (confidence : ℚ) : MatchResult :=
  { id := id, photos := photos, confidence := confidence,
    timeWindow := { start := 0, stop := 0 }, status := MatchStatus.pending,
    hammingDistance := 0 }

/-- Concrete match candidate with an explicit time window. -/
def mkMatchW (id : String) (photos : List Photo) (confidence : ℚ) (ws wstop : ℚ) :
    MatchResult :=
  { id := id, photos := photos, confidence := confidence,
    timeWindow := { start := ws, stop := wstop }, status := MatchStatus.pending,
    hammingDistance := 0 }

/-- Candidates exercising the clustering stage: mA overlaps mB by 2/5 and mD
by 1/5; mB overlaps mD by 2/5. -/
def mA : MatchResult := mkMatch "A" [mkPhoto "p1", mkPhoto "p2", mkPhoto "p3"] 90

/-- Second clustering-stage candidate (higher score 80·4=320 than mA's 270). -/
def mB : MatchResult :=
  mkMatch "B" [mkPhoto "p2", mkPhoto "p3", mkPhoto "p4", mkPhoto "p7"] 80

/-- Third clustering-stage candidate, not overlapping mA above 0.3. -/
def mD : MatchResult := mkMatch "D" [mkPhoto "p3", mkPhoto "p4", mkPhoto "p5"] 70

/-- Subset-removal example from the spec: a three-photo group at confidence 90. -/
def mG1 : MatchResult := mkMatch "G1" [mkPhoto "p1", mkPhoto "p2", mkPhoto "p3"] 90

/-- Its strict-subset companion at higher confidence 95. -/
def mG2 : MatchResult := mkMatch "G2" [mkPhoto "p1", mkPhoto "p2"] 95

/-- Candidate whose photo list repeats an id: the id set is that of mY5 but
its reciprocal-removal key is the distinct string a|a|b. -/
def mX5 : MatchResult := mkMatch "X5" [mkPhoto "a", mkPhoto "a", mkPhoto "b"] 90

/-- Candidate with the same photo-id set as mX5 and key a|b. -/
def mY5 : MatchResult := mkMatch "Y5" [mkPhoto "a", mkPhoto "b"] 80

/-- Temporal-suppression example: four photos, window 0..100. -/
def mX6 : MatchResult :=
  mkMatchW "X6" [mkPhoto "q1", mkPhoto "q2", mkPhoto "q3", mkPhoto "q4"] 90 0 100

/-- Shares three of mX6's four photo ids (Jaccard 3/5) but its window 200..300
is disjoint from mX6's. -/
def mY6 : MatchResult :=
  mkMatchW "Y6" [mkPhoto "q2", mkPhoto "q3", mkPhoto "q4", mkPhoto "q5"] 85 200 300

/-- Seed photo for the candidate-generator example (hash of 16 zeros). -/
def pSeed : Photo := mkPhotoH "pa" 0 "0000000000000000"

/-- Neighbor photo one minute later at Hamming distance 1 from the seed. -/
def pNeighbor : Photo := mkPhotoH "pb" 60000 "0000000000000001"

/-! ## Theorems: fingerprint packing (claims C1 and C2) -/

/-- C1: on the 63-bit all-ones pattern the native Kotlin packing emits the
spec's string FFFFFFFFFFFFFFFE (last nibble 1110 from 111 plus a padding 0),
but the web fallback packing emits FFFFFFFFFFFFFFF7: it converts the final
3-bit chunk without padding, reading 111 as the value 7. -/
theorem claim_C1 :
    binaryToHexNative (List.replicate 63 true) = "FFFFFFFFFFFFFFFE" ∧
    binaryToHexWeb (List.replicate 63 true) = "FFFFFFFFFFFFFFF7" := by
  constructor <;> decide

/-- C2: the two hash-generation paths are not extensionally equal. On the
coefficient matrix whose threshold pattern ends in bits 0,0,1 the native path
pads the final chunk (0010, digit 2) while the web path reads it raw
(001, digit 1), so the 16-character outputs differ in the last position. -/
theorem claim_C2 :
    generateHashFromDCTNative sampleDCT = "0000000000000002" ∧
    generateHashFromDCTWeb sampleDCT = "0000000000000001" ∧
    generateHashFromDCTNative sampleDCT ≠ generateHashFromDCTWeb sampleDCT := by
  refine ⟨by decide, by decide, by decide⟩

/-! ## Theorems: Hamming distance (claims C7 and C8) -/

theorem hammingChars_comm (l1 : List Char) : ∀ l2, hammingChars l1 l2 = hammingChars l2 l1 := by
  induction l1 with
  | nil => intro l2; cases l2 <;> rfl
  | cons c1 t1 ih =>
    intro l2
    cases l2 with
    | nil => rfl
    | cons c2 t2 =>
      simp only [hammingChars]
      cases h1 : hexVal c1 <;> cases h2 : hexVal c2 <;> simp [ih t2, Nat.xor_comm]

theorem hammingChars_self (l : List Char) (h : ∀ c ∈ l, (hexVal c).isSome = true) :
    hammingChars l l = Except.ok 0 := by
  induction l with
  | nil => rfl
  | cons c t ih =>
    obtain ⟨v, hv⟩ := Option.isSome_iff_exists.mp (h c (by simp))
    have ht := ih (fun x hx => h x (by simp [hx]))
    simp [hammingChars, hv, ht, Nat.xor_self, popCount4, Except.map]

theorem hammingChars_ok_of_hex : ∀ l1 l2 : List Char,
    (∀ c ∈ l1, (hexVal c).isSome = true) → (∀ c ∈ l2, (hexVal c).isSome = true) →
    l1.length = l2.length → ∃ n, hammingChars l1 l2 = Except.ok n := by
  intro l1
  induction l1 with
  | nil =>
    intro l2 _ _ hlen
    obtain rfl : l2 = [] := List.length_eq_zero.mp (by simpa using hlen.symm)
    exact ⟨0, rfl⟩
  | cons c t ih =>
    intro l2 h1 h2 hlen
    cases l2 with
    | nil => simp at hlen
    | cons c' t' =>
      obtain ⟨v, hv⟩ := Option.isSome_iff_exists.mp (h1 c (by simp))
      obtain ⟨v', hv'⟩ := Option.isSome_iff_exists.mp (h2 c' (by simp))
      obtain ⟨n, hn⟩ := ih t' (fun x hx => h1 x (by simp [hx]))
        (fun x hx => h2 x (by simp [hx])) (by simpa using hlen)
      exact ⟨popCount4 (v ^^^ v') + n, by simp [hammingChars, hv, hv', hn, Except.map]⟩

theorem pad4_hex : ∀ x1 x2 x3 x4 : Bool,
    hexVal (hexDigitChar (nibbleValPadded [x1, x2, x3, x4])) =
      some (nibbleValPadded [x1, x2, x3, x4]) := by decide

theorem pad3_hex : ∀ x1 x2 x3 : Bool,
    hexVal (hexDigitChar (nibbleValPadded [x1, x2, x3])) =
      some (nibbleValPadded [x1, x2, x3]) := by decide

theorem pad2_hex : ∀ x1 x2 : Bool,
    hexVal (hexDigitChar (nibbleValPadded [x1, x2])) =
      some (nibbleValPadded [x1, x2]) := by decide

theorem pad1_hex : ∀ x1 : Bool,
    hexVal (hexDigitChar (nibbleValPadded [x1])) = some (nibbleValPadded [x1]) := by decide

theorem chunk4_le : ∀ x1 x2 x3 x4 y1 y2 y3 y4 : Bool,
    popCount4 (nibbleValPadded [x1, x2, x3, x4] ^^^ nibbleValPadded [y1, y2, y3, y4]) ≤ 4 := by
  decide

theorem chunk3_le : ∀ x1 x2 x3 y1 y2 y3 : Bool,
    popCount4 (nibbleValPadded [x1, x2, x3] ^^^ nibbleValPadded [y1, y2, y3]) ≤ 3 := by decide

theorem chunk2_le : ∀ x1 x2 y1 y2 : Bool,
    popCount4 (nibbleValPadded [x1, x2] ^^^ nibbleValPadded [y1, y2]) ≤ 2 := by decide

theorem chunk1_le : ∀ x1 y1 : Bool,
    popCount4 (nibbleValPadded [x1] ^^^ nibbleValPadded [y1]) ≤ 1 := by decide

theorem four_split {α : Type} (a : List α) (h : 4 ≤ a.length) :
    ∃ x1 x2 x3 x4 t, a = x1 :: x2 :: x3 :: x4 :: t := by
  rcases a with _ | ⟨x1, _ | ⟨x2, _ | ⟨x3, _ | ⟨x4, t⟩⟩⟩⟩ <;> simp at h ⊢

theorem list_len2 {α : Type} (l : List α) (h : l.length = 2) : ∃ x y, l = [x, y] := by
  rcases l with _ | ⟨x, _ | ⟨y, _ | ⟨z, t⟩⟩⟩ <;> simp at h ⊢

theorem list_len3 {α : Type} (l : List α) (h : l.length = 3) : ∃ x y z, l = [x, y, z] := by
  rcases l with _ | ⟨x, _ | ⟨y, _ | ⟨z, _ | ⟨w, t⟩⟩⟩⟩ <;> simp at h ⊢

/-- Engine-output bound: on equal-length bit patterns, the Kotlin scorer on
native-packed hex strings succeeds and yields at most one mismatch per real
bit; the padding bit of a short final chunk is 0 on both sides and never
contributes. -/
theorem hexNative_hamming_le (n : ℕ) : ∀ a b : List Bool, a.length = b.length →
    a.length = n →
    ∃ d, hammingChars (binaryToHexNative a).data (binaryToHexNative b).data =
      Except.ok d ∧ d ≤ n := by
  induction n using Nat.strong_induction_on with
  | _ n ih =>
    intro a b hab han
    by_cases h4 : 4 ≤ n
    · obtain ⟨x1, x2, x3, x4, ta, rfl⟩ := four_split a (by omega)
      obtain ⟨y1, y2, y3, y4, tb, rfl⟩ := four_split b (by rw [← hab]; omega)
      have hta : ta.length = tb.length := by simpa using hab
      have htn : ta.length = n - 4 := by simp at han; omega
      obtain ⟨d, hd, hdle⟩ := ih (n - 4) (by omega) ta tb hta htn
      refine ⟨popCount4 (nibbleValPadded [x1, x2, x3, x4] ^^^
        nibbleValPadded [y1, y2, y3, y4]) + d, ?_, ?_⟩
      · have ea : (binaryToHexNative (x1 :: x2 :: x3 :: x4 :: ta)).data =
            hexDigitChar (nibbleValPadded [x1, x2, x3, x4]) :: (binaryToHexNative ta).data := rfl
        have eb : (binaryToHexNative (y1 :: y2 :: y3 :: y4 :: tb)).data =
            hexDigitChar (nibbleValPadded [y1, y2, y3, y4]) :: (binaryToHexNative tb).data := rfl
        rw [ea, eb]
        simp [hammingChars, pad4_hex, hd, Except.map]
      · have := chunk4_le x1 x2 x3 x4 y1 y2 y3 y4
        omega
    · interval_cases n
      · obtain rfl : a = [] := List.length_eq_zero.mp han
        obtain rfl : b = [] := List.length_eq_zero.mp (hab ▸ han)
        exact ⟨0, rfl, Nat.le_refl 0⟩
      · obtain ⟨x1, rfl⟩ := List.length_eq_one.mp han
        obtain ⟨y1, rfl⟩ := List.length_eq_one.mp (hab ▸ han)
        exact ⟨popCount4 (nibbleValPadded [x1] ^^^ nibbleValPadded [y1]),
          by simp [binaryToHexNative, toNibbles, hammingChars, pad1_hex, Except.map], chunk1_le x1 y1⟩
      · obtain ⟨x1, x2, rfl⟩ := list_len2 a han
        obtain ⟨y1, y2, rfl⟩ := list_len2 b (hab ▸ han)
        exact ⟨popCount4 (nibbleValPadded [x1, x2] ^^^ nibbleValPadded [y1, y2]),
          by simp [binaryToHexNative, toNibbles, hammingChars, pad2_hex, Except.map], chunk2_le x1 x2 y1 y2⟩
      · obtain ⟨x1, x2, x3, rfl⟩ := list_len3 a han
        obtain ⟨y1, y2, y3, rfl⟩ := list_len3 b (hab ▸ han)
        exact ⟨popCount4 (nibbleValPadded [x1, x2, x3] ^^^ nibbleValPadded [y1, y2, y3]),
          by simp [binaryToHexNative, toNibbles, hammingChars, pad3_hex, Except.map],
          chunk3_le x1 x2 x3 y1 y2 y3⟩

/-- Equal-length bit patterns pack to equal-length hex strings. -/
theorem toNibbles_length (n : ℕ) : ∀ l : List Bool, l.length = n →
    (toNibbles l).length = (n + 3) / 4 := by
  induction n using Nat.strong_induction_on with
  | _ n ih =>
    intro l hl
    by_cases h4 : 4 ≤ n
    · obtain ⟨x1, x2, x3, x4, t, rfl⟩ := four_split l (by omega)
      have := ih (n - 4) (by omega) t (by simp at hl; omega)
      simp [toNibbles, this]
      omega
    · interval_cases n
      · obtain rfl : l = [] := List.length_eq_zero.mp hl
        rfl
      · obtain ⟨x1, rfl⟩ := List.length_eq_one.mp hl
        rfl
      · obtain ⟨x1, x2, rfl⟩ := list_len2 l hl
        rfl
      · obtain ⟨x1, x2, x3, rfl⟩ := list_len3 l hl
        rfl

/-- C7: the scorer is symmetric on equal-length hex strings, zero on an input
compared with itself, and on any two engine-packed 63-bit patterns it
succeeds with a distance of at most 63. -/
theorem claim_C7 :
    (∀ a b : String, isHexStr a = true → isHexStr b = true → a.length = b.length →
      hammingDistance a b = hammingDistance b a) ∧
    (∀ a : String, isHexStr a = true → hammingDistance a a = Except.ok 0) ∧
    (∀ bitsA bitsB : List Bool, bitsA.length = 63 → bitsB.length = 63 →
      ∃ d, hammingDistance (binaryToHexNative bitsA) (binaryToHexNative bitsB) =
        Except.ok d ∧ d ≤ 63) := by
  refine ⟨?_, ?_, ?_⟩
  · intro a b _ _ hlen
    simp [hammingDistance, hlen, hammingChars_comm]
  · intro a ha
    have : ∀ c ∈ a.data, (hexVal c).isSome = true := by
      simpa [isHexStr, List.all_eq_true] using ha
    simp [hammingDistance, hammingChars_self a.data this]
  · intro bitsA bitsB hA hB
    obtain ⟨d, hd, hdle⟩ := hexNative_hamming_le 63 bitsA bitsB (by omega) hA
    have hlen : (binaryToHexNative bitsA).length = (binaryToHexNative bitsB).length := by
      simp [binaryToHexNative, String.length, toNibbles_length 63 bitsA hA,
        toNibbles_length 63 bitsB hB]
    exact ⟨d, by simp [hammingDistance, hlen, hd], hdle⟩

/-- C7 witness: symmetry, self-distance zero and the 63 bound at concrete
inputs. -/
theorem claim_C7_witness :
    hammingDistance "AB" "BA" = hammingDistance "BA" "AB" ∧
    hammingDistance "AB" "AB" = Except.ok 0 ∧
    ∃ d, hammingDistance (binaryToHexNative (List.replicate 63 true))
      (binaryToHexNative (List.replicate 63 false)) = Except.ok d ∧ d ≤ 63 :=
  ⟨claim_C7.1 "AB" "BA" (by decide) (by decide) (by decide),
   claim_C7.2.1 "AB" (by decide),
   claim_C7.2.2 (List.replicate 63 true) (List.replicate 63 false) (by decide) (by decide)⟩

/-- C8: for hex-digit inputs, both scorer implementations fail with the
length-mismatch condition exactly when the character lengths differ, and on
equal lengths both return an integer. -/
theorem claim_C8 : ∀ h1 h2 : String, isHexStr h1 = true → isHexStr h2 = true →
    ((hammingDistance h1 h2 = Except.error HashError.lengthMismatch ↔
        ¬h1.length = h2.length) ∧
      (h1.length = h2.length → ∃ n, hammingDistance h1 h2 = Except.ok n)) ∧
    ((calculateHammingDistanceJS h1 h2 = Except.error HashError.lengthMismatch ↔
        ¬h1.length = h2.length) ∧
      (h1.length = h2.length → ∃ n, calculateHammingDistanceJS h1 h2 = Except.ok n)) := by
  intro h1 h2 hx1 hx2
  have hh1 : ∀ c ∈ h1.data, (hexVal c).isSome = true := by
    simpa [isHexStr, List.all_eq_true] using hx1
  have hh2 : ∀ c ∈ h2.data, (hexVal c).isSome = true := by
    simpa [isHexStr, List.all_eq_true] using hx2
  have hlen : h1.length = h1.data.length := rfl
  have hlen2 : h2.length = h2.data.length := rfl
  refine ⟨⟨?_, ?_⟩, ⟨?_, ?_⟩⟩
  · constructor
    · intro herr heq
      obtain ⟨n, hn⟩ := hammingChars_ok_of_hex h1.data h2.data hh1 hh2 (by omega)
      rw [hammingDistance, if_pos heq, hn] at herr
      exact Except.noConfusion herr
    · intro hne
      simp [hammingDistance, hne]
  · intro heq
    obtain ⟨n, hn⟩ := hammingChars_ok_of_hex h1.data h2.data hh1 hh2 (by omega)
    exact ⟨n, by simp [hammingDistance, heq, hn]⟩
  · constructor
    · intro herr heq
      rw [calculateHammingDistanceJS, if_pos heq] at herr
      exact Except.noConfusion herr
    · intro hne
      simp [calculateHammingDistanceJS, hne]
  · intro heq
    refine ⟨(h1.data.zip h2.data).foldl
      (fun acc p => acc + popCount4 (jsDigitVal p.1 ^^^ jsDigitVal p.2)) 0, ?_⟩
    rw [calculateHammingDistanceJS, if_pos heq]

/-- C8 witness: a concrete length mismatch fails and a concrete equal-length
pair succeeds. -/
theorem claim_C8_witness :
    hammingDistance "AB" "A" = Except.error HashError.lengthMismatch ∧
    ∃ n, hammingDistance "AB" "CD" = Except.ok n :=
  ⟨((claim_C8 "AB" "A" (by decide) (by decide)).1.1).mpr (by decide),
   (claim_C8 "AB" "CD" (by decide) (by decide)).1.2 (by decide)⟩

/-! ## Theorems: subset removal (claim C4) -/

theorem isSubsetMatch_iff (a b : MatchResult) :
    isSubsetMatch a b = true ↔
      (photoIdSet a).card < (photoIdSet b).card ∧ photoIdSet a ⊆ photoIdSet b := by
  unfold isSubsetMatch
  by_cases h : (photoIdSet b).card ≤ (photoIdSet a).card
  · rw [if_pos h]
    constructor
    · intro hf; exact absurd hf (by simp)
    · intro ⟨hlt, _⟩; omega
  · rw [if_neg h]
    simp only [decide_eq_true_eq]
    have hlt : (photoIdSet a).card < (photoIdSet b).card := by omega
    exact ⟨fun hs => ⟨hlt, hs⟩, fun ⟨_, hs⟩ => hs⟩

theorem isSubsetMatch_irrefl (a : MatchResult) : isSubsetMatch a a = false := by
  unfold isSubsetMatch
  rw [if_pos (Nat.le_refl _)]

theorem isSubsetMatch_trans {a b c : MatchResult} (h1 : isSubsetMatch a b = true)
    (h2 : isSubsetMatch b c = true) : isSubsetMatch a c = true := by
  rw [isSubsetMatch_iff] at h1 h2 ⊢
  exact ⟨Nat.lt_trans h1.1 h2.1, h1.2.trans h2.2⟩

theorem insertConfDesc_perm (m : MatchResult) : ∀ l, (insertConfDesc m l).Perm (m :: l) := by
  intro l
  induction l with
  | nil => exact List.Perm.refl _
  | cons x xs ih =>
    unfold insertConfDesc
    by_cases h : x.confidence ≤ m.confidence
    · rw [if_pos h]
    · rw [if_neg h]
      exact (List.Perm.cons x ih).trans (List.Perm.swap m x xs)

theorem sortByConfidenceDesc_perm : ∀ l, (sortByConfidenceDesc l).Perm l := by
  intro l
  induction l with
  | nil => exact List.Perm.refl _
  | cons m ms ih =>
    exact (insertConfDesc_perm m (sortByConfidenceDesc ms)).trans (List.Perm.cons m ih)

theorem mem_sortByConfidenceDesc {x : MatchResult} {l : List MatchResult} :
    x ∈ sortByConfidenceDesc l ↔ x ∈ l :=
  (sortByConfidenceDesc_perm l).mem_iff

theorem recipGo_mem : ∀ (l : List MatchResult) (seen : List String)
    (acc : List MatchResult) {x : MatchResult}, x ∈ recipGo l seen acc → x ∈ acc ∨ x ∈ l := by
  intro l
  induction l with
  | nil => intro seen acc x h; exact Or.inl h
  | cons m rest ih =>
    intro seen acc x h
    unfold recipGo at h
    by_cases hk : pairKey m ∈ seen
    · rw [if_pos hk] at h
      rcases ih _ _ h with h | h
      · exact Or.inl h
      · exact Or.inr (by simp [h])
    · rw [if_neg hk] at h
      rcases ih _ _ h with h | h
      · rcases List.mem_append.mp h with h | h
        · exact Or.inl h
        · exact Or.inr (by simp [List.mem_singleton.mp h])
      · exact Or.inr (by simp [h])

theorem removeReciprocalMatches_mem {x : MatchResult} {l : List MatchResult}
    (h : x ∈ removeReciprocalMatches l) : x ∈ l := by
  rcases recipGo_mem l [] [] h with h | h
  · exact absurd h (List.not_mem_nil x)
  · exact h

theorem temporal_foldl_mem : ∀ (l S : List MatchResult) {x : MatchResult},
    x ∈ l.foldl temporalStep S → x ∈ S ∨ x ∈ l := by
  intro l
  induction l with
  | nil => intro S x h; exact Or.inl h
  | cons cur rest ih =>
    intro S x h
    rw [List.foldl_cons] at h
    rcases ih _ h with h | h
    · unfold temporalStep at h
      by_cases hc : S.any (fun e =>
          decide ((1:ℚ)/2 < calculatePhotoOverlap cur e ∧ 0 < calculateTimeOverlap cur e))
      · rw [if_pos hc] at h; exact Or.inl h
      · rw [if_neg hc] at h
        rcases List.mem_append.mp h with h | h
        · exact Or.inl h
        · exact Or.inr (by simp [List.mem_singleton.mp h])
    · exact Or.inr (by simp [h])

theorem removeTemporalOverlaps_mem {x : MatchResult} {l : List MatchResult}
    (h : x ∈ removeTemporalOverlaps l) : x ∈ l := by
  rcases temporal_foldl_mem l [] h with h | h
  · exact absurd h (List.not_mem_nil x)
  · exact h

theorem subsetStep_eq (S : List MatchResult) (cur : MatchResult) :
    subsetStep S cur =
      if S.any (fun accepted => isSubsetMatch cur accepted) then S
      else (S.filter (fun a => !(isSubsetMatch a cur))) ++ [cur] := rfl

theorem subsetStep_nosub {S : List MatchResult} (cur : MatchResult)
    (h : ∀ x ∈ S, ∀ y ∈ S, isSubsetMatch x y = false) :
    ∀ x ∈ subsetStep S cur, ∀ y ∈ subsetStep S cur, isSubsetMatch x y = false := by
  unfold subsetStep
  by_cases hc : S.any (fun accepted => isSubsetMatch cur accepted)
  · rw [if_pos hc]; exact h
  · rw [if_neg hc]
    have hnc : ∀ z ∈ S, isSubsetMatch cur z = false := by
      intro z hz
      by_contra hne
      exact hc (List.any_eq_true.mpr ⟨z, hz, by
        cases hcz : isSubsetMatch cur z with
        | true => rfl
        | false => exact absurd hcz hne⟩)
    intro x hx y hy
    rcases List.mem_append.mp hx with hx | hx
    · rcases List.mem_append.mp hy with hy | hy
      · exact h x (List.mem_of_mem_filter hx) y (List.mem_of_mem_filter hy)
      · have hy' : y = cur := List.mem_singleton.mp hy
        have := List.of_mem_filter hx
        rw [hy']
        simpa using this
    · have hx' : x = cur := List.mem_singleton.mp hx
      rcases List.mem_append.mp hy with hy | hy
      · exact hx' ▸ hnc y (List.mem_of_mem_filter hy)
      · have hy' : y = cur := List.mem_singleton.mp hy
        rw [hx', hy']
        exact isSubsetMatch_irrefl cur

theorem subset_foldl_nosub : ∀ (l S : List MatchResult),
    (∀ x ∈ S, ∀ y ∈ S, isSubsetMatch x y = false) →
    ∀ x ∈ l.foldl subsetStep S, ∀ y ∈ l.foldl subsetStep S, isSubsetMatch x y = false := by
  intro l
  induction l with
  | nil => intro S h; exact h
  | cons cur rest ih =>
    intro S h
    rw [List.foldl_cons]
    exact ih _ (subsetStep_nosub cur h)

theorem subsetStep_persist {a : MatchResult} {S : List MatchResult} (cur : MatchResult)
    (h : ∃ z ∈ S, isSubsetMatch a z = true) :
    ∃ z ∈ subsetStep S cur, isSubsetMatch a z = true := by
  obtain ⟨z, hz, haz⟩ := h
  unfold subsetStep
  by_cases hc : S.any (fun accepted => isSubsetMatch cur accepted)
  · rw [if_pos hc]; exact ⟨z, hz, haz⟩
  · rw [if_neg hc]
    by_cases hzc : isSubsetMatch z cur = true
    · exact ⟨cur, by simp, isSubsetMatch_trans haz hzc⟩
    · have hzf : isSubsetMatch z cur = false := by
        cases hb : isSubsetMatch z cur with
        | true => exact absurd hb hzc
        | false => rfl
      exact ⟨z, List.mem_append.mpr (Or.inl (List.mem_filter.mpr ⟨hz, by simp [hzf]⟩)), haz⟩

theorem subset_foldl_persist {a : MatchResult} : ∀ (l S : List MatchResult),
    (∃ z ∈ S, isSubsetMatch a z = true) →
    ∃ z ∈ l.foldl subsetStep S, isSubsetMatch a z = true := by
  intro l
  induction l with
  | nil => intro S h; exact h
  | cons cur rest ih =>
    intro S h
    rw [List.foldl_cons]
    exact ih _ (subsetStep_persist cur h)

theorem subset_absent {a : MatchResult} {L : List MatchResult}
    (hno : ∀ x ∈ L, ∀ y ∈ L, isSubsetMatch x y = false)
    (hex : ∃ z ∈ L, isSubsetMatch a z = true) : a ∉ L := by
  intro ha
  obtain ⟨z, hz, haz⟩ := hex
  have := hno a ha z hz
  rw [this] at haz
  exact Bool.noConfusion haz

theorem removeSubset_absent {a b : MatchResult} {l : List MatchResult}
    (hb : b ∈ l) (hab : isSubsetMatch a b = true) : a ∉ removeSubsetMatches l := by
  obtain ⟨l1, l2, rfl⟩ := List.append_of_mem hb
  unfold removeSubsetMatches
  rw [List.foldl_append, List.foldl_cons]
  have hinv1 : ∀ x ∈ l1.foldl subsetStep [], ∀ y ∈ l1.foldl subsetStep [],
      isSubsetMatch x y = false := subset_foldl_nosub l1 [] (by simp)
  have hP2 : ∃ z ∈ subsetStep (l1.foldl subsetStep []) b, isSubsetMatch a z = true := by
    rw [subsetStep_eq]
    by_cases hc : (l1.foldl subsetStep []).any (fun accepted => isSubsetMatch b accepted)
    · rw [if_pos hc]
      obtain ⟨z, hz, hbz⟩ := List.any_eq_true.mp hc
      exact ⟨z, hz, isSubsetMatch_trans hab hbz⟩
    · rw [if_neg hc]
      exact ⟨b, by simp, hab⟩
  exact subset_absent (subset_foldl_nosub l2 _ (subsetStep_nosub b hinv1))
    (subset_foldl_persist l2 _ hP2)

/-- C4: after `deduplicateMatches` no candidate's photo-id set is a strict
subset of another's, and an input candidate whose id set is a strict subset of
another input candidate's id set never survives, regardless of the confidence
order. -/
theorem claim_C4 (ms : List MatchResult) :
    (∀ a ∈ deduplicateMatches ms, ∀ b ∈ deduplicateMatches ms,
      isSubsetMatch a b = false) ∧
    (∀ a b : MatchResult, a ∈ ms → b ∈ ms → isSubsetMatch a b = true →
      a ∉ deduplicateMatches ms) := by
  constructor
  · intro a ha b hb
    unfold deduplicateMatches at ha hb
    by_cases hlen : ms.length ≤ 1
    · rw [if_pos hlen] at ha hb
      rcases ms with _ | ⟨m, _ | ⟨m2, t⟩⟩
      · exact absurd ha (List.not_mem_nil a)
      · have ha' : a = m := List.mem_singleton.mp ha
        have hb' : b = m := List.mem_singleton.mp hb
        rw [ha', hb']
        exact isSubsetMatch_irrefl m
      · simp at hlen
    · rw [if_neg hlen] at ha hb
      have ha' := removeReciprocalMatches_mem (removeTemporalOverlaps_mem ha)
      have hb' := removeReciprocalMatches_mem (removeTemporalOverlaps_mem hb)
      exact subset_foldl_nosub (sortByConfidenceDesc ms) [] (by simp) a ha' b hb'
  · intro a b ha hb hab
    unfold deduplicateMatches
    by_cases hlen : ms.length ≤ 1
    · rw [if_pos hlen]
      rcases ms with _ | ⟨m, _ | ⟨m2, t⟩⟩
      · exact List.not_mem_nil a
      · have ha' : a = m := List.mem_singleton.mp ha
        have hb' : b = m := List.mem_singleton.mp hb
        rw [ha', hb', isSubsetMatch_irrefl m] at hab
        exact absurd hab (by simp)
      · simp at hlen
    · rw [if_neg hlen]
      intro hmem
      have hmem' := removeReciprocalMatches_mem (removeTemporalOverlaps_mem hmem)
      exact removeSubset_absent (mem_sortByConfidenceDesc.mpr hb) hab hmem'

/-- C4 witness: the spec's example pair, where the strict subset has the
higher confidence and is nevertheless dropped. -/
theorem claim_C4_witness :
    isSubsetMatch mG2 mG1 = true ∧ mG2 ∉ deduplicateMatches [mG1, mG2] :=
  ⟨by decide, (claim_C4 [mG1, mG2]).2 mG2 mG1 (by decide) (by decide) (by decide)⟩

/-! ## Theorems: temporal-overlap suppression (claim C6) -/

theorem temporalStep_eq (S : List MatchResult) (cur : MatchResult) :
    temporalStep S cur =
      if S.any (fun e => decide ((1:ℚ)/2 < calculatePhotoOverlap cur e ∧
          0 < calculateTimeOverlap cur e)) then S
      else S ++ [cur] := rfl

theorem temporalStep_append {acc : List MatchResult} {cur : MatchResult}
    (h : ¬ ∃ e ∈ acc, (1:ℚ)/2 < calculatePhotoOverlap cur e ∧
      0 < calculateTimeOverlap cur e) :
    temporalStep acc cur = acc ++ [cur] := by
  rw [temporalStep_eq, if_neg]
  intro hc
  exact h (by simpa [List.any_eq_true, decide_eq_true_eq] using hc)

theorem temporalStep_keep {acc : List MatchResult} {cur : MatchResult}
    (h : ∃ e ∈ acc, (1:ℚ)/2 < calculatePhotoOverlap cur e ∧
      0 < calculateTimeOverlap cur e) :
    temporalStep acc cur = acc := by
  rw [temporalStep_eq, if_pos]
  obtain ⟨e, he, hcond⟩ := h
  exact List.any_eq_true.mpr ⟨e, he, decide_eq_true hcond⟩

/-- C6: the temporal stage drops the current candidate exactly when some
already-accepted candidate has Jaccard photo overlap above one half and
strictly positive time-window overlap with it; the concrete pair sharing three
of four photo ids (Jaccard 3/5) with disjoint windows survives in full. -/
theorem claim_C6 :
    (∀ (acc : List MatchResult) (cur : MatchResult),
      temporalStep acc cur = acc ↔
        ∃ e ∈ acc, (1:ℚ)/2 < calculatePhotoOverlap cur e ∧
          0 < calculateTimeOverlap cur e) ∧
    removeTemporalOverlaps [mX6, mY6] = [mX6, mY6] ∧
    calculatePhotoOverlap mY6 mX6 = 3/5 ∧
    calculateTimeOverlap mY6 mX6 = 0 := by
  have htime0 : calculateTimeOverlap mY6 mX6 = 0 := by decide
  have hnodrop : ¬ ∃ e ∈ [mX6], (1:ℚ)/2 < calculatePhotoOverlap mY6 e ∧
      0 < calculateTimeOverlap mY6 e := by
    rintro ⟨e, he, -, hpos⟩
    rw [List.mem_singleton.mp he, htime0] at hpos
    exact lt_irrefl 0 hpos
  refine ⟨?_, ?_, ?_, htime0⟩
  · intro acc cur
    constructor
    · intro heq
      by_cases hc : ∃ e ∈ acc, (1:ℚ)/2 < calculatePhotoOverlap cur e ∧
          0 < calculateTimeOverlap cur e
      · exact hc
      · rw [temporalStep_append hc] at heq
        have := congrArg List.length heq
        simp at this
    · exact temporalStep_keep
  · unfold removeTemporalOverlaps
    rw [List.foldl_cons, List.foldl_cons, List.foldl_nil]
    have e1 : temporalStep [] mX6 = [mX6] := rfl
    rw [e1, temporalStep_append hnodrop]
    rfl
  · have hint : ((photoIdSet mY6) ∩ (photoIdSet mX6)).card = 3 := by decide
    have huni : ((photoIdSet mY6) ∪ (photoIdSet mX6)).card = 5 := by decide
    rw [calculatePhotoOverlap, hint, huni]
    norm_num

/-! ## Theorems: reciprocal removal (claim C5) -/

theorem char_eq_of_toNat_eq {c d : Char} (h : c.toNat = d.toNat) : c = d :=
  Char.eq_of_val_eq (UInt32.toNat.inj h)

theorem charListLeb_total : ∀ a b : List Char,
    charListLeb a b = true ∨ charListLeb b a = true := by
  intro a
  induction a with
  | nil => intro b; exact Or.inl rfl
  | cons c1 t1 ih =>
    intro b
    cases b with
    | nil => exact Or.inr rfl
    | cons c2 t2 =>
      unfold charListLeb
      rcases Nat.lt_trichotomy c1.toNat c2.toNat with h | h | h
      · left; rw [if_pos h]
      · rw [if_neg (by omega), if_neg (by omega), if_neg (by omega), if_neg (by omega)]
        exact ih t2
      · right; rw [if_pos h]

theorem charListLeb_trans : ∀ a b c : List Char, charListLeb a b = true →
    charListLeb b c = true → charListLeb a c = true := by
  intro a
  induction a with
  | nil => intro b c _ _; rfl
  | cons c1 t1 ih =>
    intro b c h1 h2
    cases b with
    | nil => exact absurd h1 (by simp [charListLeb])
    | cons c2 t2 =>
      cases c with
      | nil => exact absurd h2 (by simp [charListLeb])
      | cons c3 t3 =>
        unfold charListLeb at h1 h2 ⊢
        by_cases hxy : c1.toNat < c2.toNat
        · by_cases hyz : c2.toNat < c3.toNat
          · rw [if_pos (by omega)]
          · by_cases hzy : c3.toNat < c2.toNat
            · rw [if_neg hyz, if_pos hzy] at h2
              exact absurd h2 (by simp)
            · rw [if_pos (by omega)]
        · by_cases hyx : c2.toNat < c1.toNat
          · rw [if_neg hxy, if_pos hyx] at h1
            exact absurd h1 (by simp)
          · rw [if_neg hxy, if_neg hyx] at h1
            by_cases hyz : c2.toNat < c3.toNat
            · rw [if_pos (by omega)]
            · by_cases hzy : c3.toNat < c2.toNat
              · rw [if_neg hyz, if_pos hzy] at h2
                exact absurd h2 (by simp)
              · rw [if_neg hyz, if_neg hzy] at h2
                rw [if_neg (by omega), if_neg (by omega)]
                exact ih t2 t3 h1 h2

theorem charListLeb_antisymm : ∀ a b : List Char, charListLeb a b = true →
    charListLeb b a = true → a = b := by
  intro a
  induction a with
  | nil =>
    intro b _ h2
    cases b with
    | nil => rfl
    | cons c2 t2 => exact absurd h2 (by simp [charListLeb])
  | cons c1 t1 ih =>
    intro b h1 h2
    cases b with
    | nil => exact absurd h1 (by simp [charListLeb])
    | cons c2 t2 =>
      unfold charListLeb at h1 h2
      by_cases hxy : c1.toNat < c2.toNat
      · rw [if_neg (by omega), if_pos hxy] at h2
        exact absurd h2 (by simp)
      · by_cases hyx : c2.toNat < c1.toNat
        · rw [if_neg hxy, if_pos hyx] at h1
          exact absurd h1 (by simp)
        · rw [if_neg hxy, if_neg hyx] at h1
          rw [if_neg hyx, if_neg hxy] at h2
          have hc : c1 = c2 := char_eq_of_toNat_eq (by omega)
          rw [hc, ih t2 h1 h2]

theorem strLeb_total (a b : String) : strLeb a b = true ∨ strLeb b a = true :=
  charListLeb_total a.data b.data

theorem strLeb_trans {a b c : String} (h1 : strLeb a b = true) (h2 : strLeb b c = true) :
    strLeb a c = true :=
  charListLeb_trans a.data b.data c.data h1 h2

theorem strLeb_antisymm {a b : String} (h1 : strLeb a b = true)
    (h2 : strLeb b a = true) : a = b :=
  String.toList_inj.mp (charListLeb_antisymm a.data b.data h1 h2)

theorem mem_insertStrAsc {x m : String} : ∀ {l : List String},
    x ∈ insertStrAsc m l ↔ x = m ∨ x ∈ l := by
  intro l
  induction l with
  | nil => simp [insertStrAsc]
  | cons y ys ih =>
    unfold insertStrAsc
    by_cases h : strLeb m y
    · rw [if_pos h]; simp
    · rw [if_neg h]
      simp only [List.mem_cons, ih]
      tauto

theorem insertStrAsc_perm (m : String) : ∀ l, (insertStrAsc m l).Perm (m :: l) := by
  intro l
  induction l with
  | nil => exact List.Perm.refl _
  | cons y ys ih =>
    unfold insertStrAsc
    by_cases h : strLeb m y
    · rw [if_pos h]
    · rw [if_neg h]
      exact (List.Perm.cons y ih).trans (List.Perm.swap m y ys)

theorem sortStrAsc_perm : ∀ l, (sortStrAsc l).Perm l := by
  intro l
  induction l with
  | nil => exact List.Perm.refl _
  | cons m ms ih => exact (insertStrAsc_perm m (sortStrAsc ms)).trans (List.Perm.cons m ih)

theorem insertStrAsc_sorted {m : String} : ∀ {l : List String},
    l.Pairwise (fun a b => strLeb a b = true) →
    (insertStrAsc m l).Pairwise (fun a b => strLeb a b = true) := by
  intro l
  induction l with
  | nil => intro _; simp [insertStrAsc]
  | cons y ys ih =>
    intro h
    unfold insertStrAsc
    by_cases hxy : strLeb m y
    · rw [if_pos hxy]
      refine List.Pairwise.cons ?_ h
      intro z hz
      rcases List.mem_cons.mp hz with rfl | hz'
      · exact hxy
      · exact strLeb_trans hxy (List.rel_of_pairwise_cons h hz')
    · rw [if_neg hxy]
      refine List.Pairwise.cons ?_ (ih (List.Pairwise.of_cons h))
      intro z hz
      rcases mem_insertStrAsc.mp hz with rfl | hz'
      · rcases strLeb_total y z with ht | ht
        · exact ht
        · exact absurd ht hxy
      · exact List.rel_of_pairwise_cons h hz'

theorem sortStrAsc_sorted : ∀ l : List String,
    (sortStrAsc l).Pairwise (fun a b => strLeb a b = true) := by
  intro l
  induction l with
  | nil => exact List.Pairwise.nil
  | cons m ms ih => exact insertStrAsc_sorted ih

theorem sortStrAsc_eq_of_perm {l1 l2 : List String} (h : l1.Perm l2) :
    sortStrAsc l1 = sortStrAsc l2 :=
  @List.eq_of_perm_of_sorted String (fun a b => strLeb a b = true)
    ⟨fun a b h1 h2 => strLeb_antisymm h1 h2⟩ _ _
    ((sortStrAsc_perm l1).trans (h.trans (sortStrAsc_perm l2).symm))
    (sortStrAsc_sorted l1) (sortStrAsc_sorted l2)

/-- Candidates with pairwise-distinct photo ids and equal photo-id sets have
equal reciprocal-removal keys. -/
theorem pairKey_eq_of_photoIdSet_eq {a b : MatchResult}
    (ha : (a.photos.map Photo.id).Nodup) (hb : (b.photos.map Photo.id).Nodup)
    (h : photoIdSet a = photoIdSet b) : pairKey a = pairKey b := by
  have hperm : (a.photos.map Photo.id).Perm (b.photos.map Photo.id) :=
    List.perm_of_nodup_nodup_toFinset_eq ha hb h
  unfold pairKey generatePairKey
  rw [sortStrAsc_eq_of_perm hperm]

theorem recipGo_keepFirst : ∀ (l : List MatchResult) (seen : List String)
    (acc : List MatchResult),
    recipGo l seen acc =
      acc ++ keepFirstPerKey (l.filter (fun x => !(decide (pairKey x ∈ seen)))) := by
  intro l
  induction l with
  | nil => intro seen acc; simp [recipGo, keepFirstPerKey]
  | cons m rest ih =>
    intro seen acc
    unfold recipGo
    by_cases hk : pairKey m ∈ seen
    · rw [if_pos hk, ih]
      congr 2
      simp [List.filter_cons, hk]
    · rw [if_neg hk, ih, List.append_assoc]
      congr 1
      rw [List.singleton_append]
      have hcons : List.filter (fun x => !(decide (pairKey x ∈ seen))) (m :: rest) =
          m :: List.filter (fun x => !(decide (pairKey x ∈ seen))) rest := by
        simp [List.filter_cons, hk]
      rw [hcons]
      simp only [keepFirstPerKey]
      congr 1
      rw [List.filter_filter]
      congr 1
      apply List.filter_congr
      intro x _
      by_cases h1 : pairKey x ∈ seen <;> by_cases h2 : pairKey x = pairKey m <;>
        simp [h1, h2]

theorem removeReciprocalMatches_keepFirst (l : List MatchResult) :
    removeReciprocalMatches l = keepFirstPerKey l := by
  unfold removeReciprocalMatches
  rw [recipGo_keepFirst]
  rw [List.filter_eq_self.mpr (by intro a _; simp)]
  rfl

theorem recipGo_keys_pairwise : ∀ (l : List MatchResult) (seen : List String)
    (acc : List MatchResult), (∀ x ∈ acc, pairKey x ∈ seen) →
    List.Pairwise (fun a b => pairKey a ≠ pairKey b) acc →
    List.Pairwise (fun a b => pairKey a ≠ pairKey b) (recipGo l seen acc) := by
  intro l
  induction l with
  | nil => intro seen acc _ hp; exact hp
  | cons m rest ih =>
    intro seen acc hin hp
    unfold recipGo
    by_cases hk : pairKey m ∈ seen
    · rw [if_pos hk]; exact ih _ _ hin hp
    · rw [if_neg hk]
      refine ih _ _ ?_ ?_
      · intro x hx
        rcases List.mem_append.mp hx with hx | hx
        · exact List.mem_append.mpr (Or.inl (hin x hx))
        · rw [List.mem_singleton.mp hx]
          exact List.mem_append.mpr (Or.inr (by simp))
      · rw [List.pairwise_append]
        refine ⟨hp, List.pairwise_singleton _ _, ?_⟩
        intro x hx y hy
        rw [List.mem_singleton.mp hy]
        intro heq
        exact hk (heq ▸ hin x hx)

theorem subsetStep_sublist (S : List MatchResult) (cur : MatchResult) :
    (subsetStep S cur).Sublist (S ++ [cur]) := by
  rw [subsetStep_eq]
  split
  · exact List.sublist_append_left S [cur]
  · exact List.Sublist.append (List.filter_sublist S) (List.Sublist.refl [cur])

theorem temporalStep_sublist (S : List MatchResult) (cur : MatchResult) :
    (temporalStep S cur).Sublist (S ++ [cur]) := by
  rw [temporalStep_eq]
  split
  · exact List.sublist_append_left S [cur]
  · exact List.Sublist.refl _

theorem foldl_step_sublist {f : List MatchResult → MatchResult → List MatchResult}
    (hf : ∀ S cur, (f S cur).Sublist (S ++ [cur])) :
    ∀ (l S p : List MatchResult), S.Sublist p → (l.foldl f S).Sublist (p ++ l) := by
  intro l
  induction l with
  | nil => intro S p h; simpa using h
  | cons cur rest ih =>
    intro S p h
    rw [List.foldl_cons]
    have step : (f S cur).Sublist (p ++ [cur]) :=
      (hf S cur).trans (List.Sublist.append h (List.Sublist.refl [cur]))
    have := ih (f S cur) (p ++ [cur]) step
    simpa [List.append_assoc] using this

theorem removeSubsetMatches_sublist (l : List MatchResult) :
    (removeSubsetMatches l).Sublist l := by
  simpa using foldl_step_sublist subsetStep_sublist l [] [] (List.nil_sublist [])

theorem removeTemporalOverlaps_sublist (l : List MatchResult) :
    (removeTemporalOverlaps l).Sublist l := by
  simpa using foldl_step_sublist temporalStep_sublist l [] [] (List.nil_sublist [])

theorem removeSubsetMatches_mem {x : MatchResult} {l : List MatchResult}
    (h : x ∈ removeSubsetMatches l) : x ∈ l :=
  (removeSubsetMatches_sublist l).subset h

/-- C5 counterexample: on candidates whose photo lists repeat an id, the
deduplicated result keeps two candidates with equal photo-id sets, because the
reciprocal keys a|a|b and a|b differ. -/
theorem claim_C5_counterexample :
    deduplicateMatches [mX5, mY5] = [mX5, mY5] ∧
    photoIdSet mX5 = photoIdSet mY5 ∧ mX5 ≠ mY5 := by
  refine ⟨?_, by decide, by decide⟩
  have htime : calculateTimeOverlap mY5 mX5 = 0 := by decide
  have hsort : sortByConfidenceDesc [mX5, mY5] = [mX5, mY5] := by decide
  have hsub : removeSubsetMatches [mX5, mY5] = [mX5, mY5] := by decide
  have hrec : removeReciprocalMatches [mX5, mY5] = [mX5, mY5] := by decide
  have htemp : removeTemporalOverlaps [mX5, mY5] = [mX5, mY5] := by
    unfold removeTemporalOverlaps
    rw [List.foldl_cons, List.foldl_cons, List.foldl_nil]
    have e1 : temporalStep [] mX5 = [mX5] := rfl
    rw [e1, temporalStep_append]
    · rfl
    · rintro ⟨e, he, -, hpos⟩
      rw [List.mem_singleton.mp he, htime] at hpos
      exact lt_irrefl 0 hpos
  unfold deduplicateMatches
  rw [if_neg (by decide), hsort, hsub, hrec, htemp]

/-- C5 as amended: Stage C keeps exactly the first candidate per distinct key,
and, provided every candidate's photo list has pairwise-distinct ids (the
data-model invariant the generator establishes), the deduplicated result never
contains two candidates with equal photo-id sets. -/
theorem claim_C5 :
    (∀ l : List MatchResult, removeReciprocalMatches l = keepFirstPerKey l) ∧
    (∀ ms : List MatchResult, (∀ m ∈ ms, (m.photos.map Photo.id).Nodup) →
      List.Pairwise (fun a b => photoIdSet a ≠ photoIdSet b) (deduplicateMatches ms)) := by
  constructor
  · exact removeReciprocalMatches_keepFirst
  · intro ms hnd
    unfold deduplicateMatches
    by_cases hlen : ms.length ≤ 1
    · rw [if_pos hlen]
      rcases ms with _ | ⟨m, _ | ⟨m2, t⟩⟩
      · exact List.Pairwise.nil
      · exact List.pairwise_singleton _ _
      · simp at hlen
    · rw [if_neg hlen]
      have hkeys : List.Pairwise (fun a b => pairKey a ≠ pairKey b)
          (removeReciprocalMatches (removeSubsetMatches (sortByConfidenceDesc ms))) :=
        recipGo_keys_pairwise _ [] [] (by simp) List.Pairwise.nil
      have hkeys2 := List.Pairwise.sublist (removeTemporalOverlaps_sublist _) hkeys
      refine List.Pairwise.imp_of_mem ?_ hkeys2
      intro a b hma hmb hne hset
      have hain : a ∈ ms := mem_sortByConfidenceDesc.mp
        (removeSubsetMatches_mem (removeReciprocalMatches_mem (removeTemporalOverlaps_mem hma)))
      have hbin : b ∈ ms := mem_sortByConfidenceDesc.mp
        (removeSubsetMatches_mem (removeReciprocalMatches_mem (removeTemporalOverlaps_mem hmb)))
      exact hne (pairKey_eq_of_photoIdSet_eq (hnd a hain) (hnd b hbin) hset)

/-! ## Theorems: the pipeline only removes and reorders (claim C10) -/

theorem pickBetter_cases (best cur : MatchResult) :
    pickBetter best cur = best ∨ pickBetter best cur = cur := by
  unfold pickBetter
  split
  · exact Or.inr rfl
  · exact Or.inl rfl

theorem foldl_pickBetter_mem : ∀ (t : List MatchResult) (h : MatchResult),
    t.foldl pickBetter h ∈ h :: t := by
  intro t
  induction t with
  | nil => intro h; simp
  | cons x xs ih =>
    intro h
    rw [List.foldl_cons]
    rcases pickBetter_cases h x with he | he <;> rw [he]
    · rcases List.mem_cons.mp (ih h) with hm | hm
      · simp [hm]
      · simp [hm]
    · rcases List.mem_cons.mp (ih x) with hm | hm
      · simp [hm]
      · simp [hm]

theorem bestRep_subset {c : List MatchResult} {x : MatchResult}
    (hx : x ∈ bestRep c) : x ∈ c := by
  cases c with
  | nil => exact absurd hx (List.not_mem_nil x)
  | cons h t =>
    rw [List.mem_singleton.mp hx]
    exact foldl_pickBetter_mem t h

theorem innerScan_mem {seed : MatchResult} : ∀ (rest : List MatchResult)
    (processed : List String) (cluster : List MatchResult) {x : MatchResult},
    x ∈ (innerScan seed rest processed cluster).1 → x ∈ cluster ∨ x ∈ rest := by
  intro rest
  induction rest with
  | nil => intro processed cluster x hx; exact Or.inl hx
  | cons other t ih =>
    intro processed cluster x hx
    unfold innerScan at hx
    by_cases h1 : other.id ∈ processed
    · rw [if_pos h1] at hx
      rcases ih _ _ hx with h | h
      · exact Or.inl h
      · exact Or.inr (by simp [h])
    · rw [if_neg h1] at hx
      by_cases h2 : (3:ℚ)/10 < calculatePhotoOverlap seed other
      · rw [if_pos h2] at hx
        rcases ih _ _ hx with h | h
        · rcases List.mem_append.mp h with h | h
          · exact Or.inl h
          · exact Or.inr (by simp [List.mem_singleton.mp h])
        · exact Or.inr (by simp [h])
      · rw [if_neg h2] at hx
        rcases ih _ _ hx with h | h
        · exact Or.inl h
        · exact Or.inr (by simp [h])

theorem outerScan_mem {P : MatchResult → Prop} : ∀ (l : List MatchResult)
    (all : List MatchResult) (processed : List String) (clusters : List (List MatchResult)),
    (∀ x ∈ all, P x) → (∀ x ∈ l, P x) →
    (∀ c ∈ clusters, ∀ x ∈ c, P x) →
    ∀ c ∈ outerScan all l processed clusters, ∀ x ∈ c, P x := by
  intro l
  induction l with
  | nil => intro all processed clusters _ _ hcl; exact hcl
  | cons m rest ih =>
    intro all processed clusters hall hl hcl
    unfold outerScan
    by_cases h1 : m.id ∈ processed
    · rw [if_pos h1]
      exact ih all _ _ hall (fun x hx => hl x (by simp [hx])) hcl
    · rw [if_neg h1]
      refine ih all _ _ hall (fun x hx => hl x (by simp [hx])) ?_
      intro c hc x hx
      rcases List.mem_append.mp hc with hc | hc
      · exact hcl c hc x hx
      · rw [List.mem_singleton.mp hc] at hx
        rcases innerScan_mem all _ _ hx with h | h
        · rw [List.mem_singleton.mp h]
          exact hl m (by simp)
        · exact hall x h

theorem identifyPhotoClusters_mem {ms : List MatchResult} {c : List MatchResult}
    {x : MatchResult} (hc : c ∈ identifyPhotoClusters ms) (hx : x ∈ c) : x ∈ ms :=
  outerScan_mem ms ms [] [] (fun _ h => h) (fun _ h => h)
    (fun _ h => absurd h (List.not_mem_nil _)) c hc x hx

theorem advancedDeduplication_mem {ms : List MatchResult} {x : MatchResult}
    (h : x ∈ advancedDeduplication ms) : x ∈ ms := by
  unfold advancedDeduplication at h
  by_cases hlen : ms.length ≤ 1
  · rwa [if_pos hlen] at h
  · rw [if_neg hlen] at h
    have h1 := mem_sortByConfidenceDesc.mp h
    obtain ⟨s, hs, hxs⟩ := List.mem_flatten.mp h1
    obtain ⟨c, hc, rfl⟩ := List.mem_map.mp hs
    exact identifyPhotoClusters_mem hc (bestRep_subset hxs)

theorem deduplicateMatches_mem {ms : List MatchResult} {x : MatchResult}
    (h : x ∈ deduplicateMatches ms) : x ∈ ms := by
  unfold deduplicateMatches at h
  by_cases hlen : ms.length ≤ 1
  · rwa [if_pos hlen] at h
  · rw [if_neg hlen] at h
    exact mem_sortByConfidenceDesc.mp
      (removeSubsetMatches_mem (removeReciprocalMatches_mem (removeTemporalOverlaps_mem h)))

/-- C10: the full pass creates and mutates nothing: every element of the
output is an element of the input list, all fields included; the pass only
removes and reorders candidates. -/
theorem claim_C10 (rawMatches : List MatchResult) (m : MatchResult)
    (h : m ∈ processMatchesWithDeduplication rawMatches) : m ∈ rawMatches := by
  unfold processMatchesWithDeduplication at h
  exact List.mem_of_mem_filter (deduplicateMatches_mem (advancedDeduplication_mem h))

theorem validMatch_mA : validMatch mA = true := by
  unfold validMatch mA mkMatch mkPhoto
  norm_num

theorem processMatches_single : processMatchesWithDeduplication [mA] = [mA] := by
  unfold processMatchesWithDeduplication
  have hval : validateAndCleanMatches [mA] = [mA] := by
    unfold validateAndCleanMatches
    simp [List.filter_cons, validMatch_mA]
  rw [hval]
  rfl

/-- C10 witness: a concrete input whose output element is the input element. -/
theorem claim_C10_witness :
    mA ∈ processMatchesWithDeduplication [mA] ∧ mA ∈ [mA] :=
  have hp : mA ∈ processMatchesWithDeduplication [mA] := by
    rw [processMatches_single]
    exact List.mem_singleton_self mA
  ⟨hp, claim_C10 [mA] mA hp⟩

/-! ## Theorems: candidate generator (claim C9) -/

theorem mem_insertTimeAsc {x p : Photo} : ∀ {l : List Photo},
    x ∈ insertTimeAsc p l ↔ x = p ∨ x ∈ l := by
  intro l
  induction l with
  | nil => simp [insertTimeAsc]
  | cons q qs ih =>
    unfold insertTimeAsc
    by_cases h : p.creationTime ≤ q.creationTime
    · rw [if_pos h]; simp
    · rw [if_neg h]
      simp only [List.mem_cons, ih]
      tauto

theorem insertTimeAsc_perm (p : Photo) : ∀ l, (insertTimeAsc p l).Perm (p :: l) := by
  intro l
  induction l with
  | nil => exact List.Perm.refl _
  | cons q qs ih =>
    unfold insertTimeAsc
    by_cases h : p.creationTime ≤ q.creationTime
    · rw [if_pos h]
    · rw [if_neg h]
      exact (List.Perm.cons q ih).trans (List.Perm.swap p q qs)

theorem sortPhotosAsc_perm : ∀ l, (sortPhotosAsc l).Perm l := by
  intro l
  induction l with
  | nil => exact List.Perm.refl _
  | cons p ps ih => exact (insertTimeAsc_perm p (sortPhotosAsc ps)).trans (List.Perm.cons p ih)

theorem insertTimeAsc_sorted {p : Photo} : ∀ {l : List Photo},
    l.Pairwise (fun a b => a.creationTime ≤ b.creationTime) →
    (insertTimeAsc p l).Pairwise (fun a b => a.creationTime ≤ b.creationTime) := by
  intro l
  induction l with
  | nil => intro _; simp [insertTimeAsc]
  | cons q qs ih =>
    intro h
    unfold insertTimeAsc
    by_cases hpq : p.creationTime ≤ q.creationTime
    · rw [if_pos hpq]
      refine List.Pairwise.cons ?_ h
      intro z hz
      rcases List.mem_cons.mp hz with rfl | hz'
      · exact hpq
      · exact le_trans hpq (List.rel_of_pairwise_cons h hz')
    · rw [if_neg hpq]
      refine List.Pairwise.cons ?_ (ih (List.Pairwise.of_cons h))
      intro z hz
      rcases mem_insertTimeAsc.mp hz with rfl | hz'
      · exact le_of_not_le hpq
      · exact List.rel_of_pairwise_cons h hz'

theorem sortPhotosAsc_sorted : ∀ l : List Photo,
    (sortPhotosAsc l).Pairwise (fun a b => a.creationTime ≤ b.creationTime) := by
  intro l
  induction l with
  | nil => exact List.Pairwise.nil
  | cons p ps ih => exact insertTimeAsc_sorted ih

theorem scanStep_eq (newPhoto : Photo) (st : List Photo × ℚ × ℕ) (o : Photo) :
    scanStep newPhoto st o =
      match neighborCheck newPhoto o with
      | none => st
      | some pd => (st.1 ++ [pd.1], st.2.1 + (pd.2 : ℚ), st.2.2 + 1) := by
  unfold scanStep neighborCheck
  by_cases h1 : o.id = newPhoto.id ∨ hasHash o = false
  · rw [if_pos h1, if_pos h1]
  · rw [if_neg h1, if_neg h1]
    by_cases h2 : newPhoto.creationTime - 15 * 60 * 1000 ≤ o.creationTime ∧
        o.creationTime ≤ newPhoto.creationTime + 15 * 60 * 1000
    · rw [if_pos h2, if_pos h2]
      cases hd : hammingDistance (newPhoto.pHash.getD "") (o.pHash.getD "") with
      | error e => rfl
      | ok d =>
        by_cases h3 : d ≤ 20 <;> simp [h3]
    · rw [if_neg h2, if_neg h2]

theorem scan_spec (newPhoto : Photo) : ∀ (l : List Photo) (mp : List Photo) (td : ℚ) (vc : ℕ),
    l.foldl (scanStep newPhoto) (mp, td, vc) =
      (mp ++ (acceptedNeighbors newPhoto l).map Prod.fst,
       td + ((acceptedNeighbors newPhoto l).map (fun p => (p.2 : ℚ))).sum,
       vc + (acceptedNeighbors newPhoto l).length) := by
  intro l
  induction l with
  | nil => intro mp td vc; simp [acceptedNeighbors]
  | cons o t ih =>
    intro mp td vc
    rw [List.foldl_cons, scanStep_eq]
    cases hnc : neighborCheck newPhoto o with
    | none =>
      rw [ih]
      unfold acceptedNeighbors
      rw [List.filterMap_cons_none hnc]
    | some pd =>
      rw [ih]
      unfold acceptedNeighbors
      rw [List.filterMap_cons_some hnc]
      simp only [Prod.mk.injEq]
      refine ⟨?_, ?_, ?_⟩
      · simp [List.append_assoc]
      · simp [add_assoc]
      · simp only [List.length_cons]
        omega

/-- C9: every emitted candidate has at least two photos sorted ascending by
creation time, its average distance is the mean of the seed-versus-neighbor
distances over the accepted neighbors, its confidence is
max(0, 100 − average·3) and lies in [0, 100], and that confidence law is
monotonically decreasing in the average distance. -/
theorem claim_C9 :
    (∀ (now : ℕ) (newPhoto : Photo) (all : List Photo) (c : MatchResult),
      findMatchForPhoto now newPhoto all = some c →
      2 ≤ c.photos.length ∧
      c.photos.Pairwise (fun a b => a.creationTime ≤ b.creationTime) ∧
      0 < (acceptedNeighbors newPhoto all).length ∧
      c.hammingDistance =
        ((acceptedNeighbors newPhoto all).map (fun p => (p.2 : ℚ))).sum /
          ((acceptedNeighbors newPhoto all).length : ℚ) ∧
      c.confidence = max 0 (100 - c.hammingDistance * 3) ∧
      0 ≤ c.confidence ∧ c.confidence ≤ 100) ∧
    (∀ d1 d2 : ℚ, d1 ≤ d2 →
      confidenceFromDistance d2 ≤ confidenceFromDistance d1) := by
  constructor
  · intro now newPhoto all c h
    unfold findMatchForPhoto at h
    by_cases hh : hasHash newPhoto = false
    · rw [if_pos hh] at h
      exact absurd h (by simp)
    · rw [if_neg hh] at h
      simp only [scan_spec newPhoto all [newPhoto] 0 0, zero_add] at h
      by_cases hlen : 1 < ([newPhoto] ++ (acceptedNeighbors newPhoto all).map Prod.fst).length
      · rw [if_pos hlen] at h
        have hpos : 0 < (acceptedNeighbors newPhoto all).length := by
          simp at hlen
          omega
        rw [if_pos hpos] at h
        obtain rfl : _ = c := Option.some.inj h
        have hsum_nonneg : 0 ≤ ((acceptedNeighbors newPhoto all).map (fun p => (p.2 : ℚ))).sum := by
          apply List.sum_nonneg
          intro a ha
          obtain ⟨p, _, rfl⟩ := List.mem_map.mp ha
          positivity
        have havg_nonneg : 0 ≤ ((acceptedNeighbors newPhoto all).map (fun p => (p.2 : ℚ))).sum /
            ((acceptedNeighbors newPhoto all).length : ℚ) := by
          apply div_nonneg hsum_nonneg
          positivity
        refine ⟨?_, sortPhotosAsc_sorted _, hpos, rfl, rfl, le_max_left _ _, ?_⟩
        · rw [(sortPhotosAsc_perm _).length_eq]
          simp only [List.length_append, List.length_cons, List.length_nil, List.length_map]
          omega
        · apply max_le (by norm_num)
          unfold confidenceFromDistance at *
          nlinarith
      · rw [if_neg hlen] at h
        exact absurd h (by simp)
  · intro d1 d2 hle
    unfold confidenceFromDistance
    apply max_le_max (le_refl 0)
    linarith

theorem findMatch_concrete_isSome :
    (findMatchForPhoto 0 pSeed [pSeed, pNeighbor]).isSome = true := by
  have hnc1 : neighborCheck pSeed pSeed = none := by
    unfold neighborCheck
    simp
  have hd : hammingDistance (pSeed.pHash.getD "") (pNeighbor.pHash.getD "") =
      Except.ok 1 := by decide
  have hnc2 : neighborCheck pSeed pNeighbor = some (pNeighbor, 1) := by
    unfold neighborCheck
    rw [if_neg (by simp [pSeed, pNeighbor, mkPhotoH, hasHash]), if_pos
      (by constructor <;> norm_num [pSeed, pNeighbor, mkPhotoH]), hd]
    norm_num
  unfold findMatchForPhoto
  rw [if_neg (by simp [pSeed, mkPhotoH, hasHash])]
  simp only [scan_spec pSeed [pSeed, pNeighbor] [pSeed] 0 0]
  unfold acceptedNeighbors
  rw [List.filterMap_cons_none hnc1, List.filterMap_cons_some hnc2,
    List.filterMap_nil]
  simp

/-- C9 witness: a concrete seed and neighbor produce a candidate, and the
claim's conclusions hold for it. -/
theorem claim_C9_witness :
    ∃ c, findMatchForPhoto 0 pSeed [pSeed, pNeighbor] = some c ∧
      2 ≤ c.photos.length ∧
      c.photos.Pairwise (fun a b => a.creationTime ≤ b.creationTime) ∧
      0 ≤ c.confidence ∧ c.confidence ≤ 100 := by
  obtain ⟨c, hc⟩ := Option.isSome_iff_exists.mp findMatch_concrete_isSome
  obtain ⟨h1, h2, _, _, _, h6, h7⟩ := claim_C9.1 0 pSeed [pSeed, pNeighbor] c hc
  exact ⟨c, hc, h1, h2, h6, h7⟩

/-! ## Theorems: idempotence of the pass without the clustering stage (claim C3) -/

theorem mem_insertConfDesc {x m : MatchResult} : ∀ {l : List MatchResult},
    x ∈ insertConfDesc m l ↔ x = m ∨ x ∈ l := by
  intro l
  induction l with
  | nil => simp [insertConfDesc]
  | cons y ys ih =>
    unfold insertConfDesc
    by_cases h : y.confidence ≤ m.confidence
    · rw [if_pos h]; simp
    · rw [if_neg h]
      simp only [List.mem_cons, ih]
      tauto

theorem insertConfDesc_sorted {m : MatchResult} : ∀ {l : List MatchResult},
    l.Pairwise (fun a b => b.confidence ≤ a.confidence) →
    (insertConfDesc m l).Pairwise (fun a b => b.confidence ≤ a.confidence) := by
  intro l
  induction l with
  | nil => intro _; simp [insertConfDesc]
  | cons y ys ih =>
    intro h
    unfold insertConfDesc
    by_cases hxy : y.confidence ≤ m.confidence
    · rw [if_pos hxy]
      refine List.Pairwise.cons ?_ h
      intro z hz
      rcases List.mem_cons.mp hz with rfl | hz'
      · exact hxy
      · exact le_trans (List.rel_of_pairwise_cons h hz') hxy
    · rw [if_neg hxy]
      refine List.Pairwise.cons ?_ (ih (List.Pairwise.of_cons h))
      intro z hz
      rcases mem_insertConfDesc.mp hz with rfl | hz'
      · exact le_of_not_le hxy
      · exact List.rel_of_pairwise_cons h hz'

theorem sortByConfidenceDesc_sorted : ∀ l : List MatchResult,
    (sortByConfidenceDesc l).Pairwise (fun a b => b.confidence ≤ a.confidence) := by
  intro l
  induction l with
  | nil => exact List.Pairwise.nil
  | cons m ms ih => exact insertConfDesc_sorted ih

theorem sortByConfidenceDesc_id : ∀ {l : List MatchResult},
    l.Pairwise (fun a b => b.confidence ≤ a.confidence) → sortByConfidenceDesc l = l := by
  intro l
  induction l with
  | nil => intro _; rfl
  | cons m t ih =>
    intro h
    unfold sortByConfidenceDesc
    rw [ih (List.Pairwise.of_cons h)]
    cases t with
    | nil => rfl
    | cons y ys =>
      unfold insertConfDesc
      rw [if_pos (List.rel_of_pairwise_cons h (by simp))]

theorem subset_foldl_id : ∀ (l S : List MatchResult),
    (∀ x ∈ S, ∀ y ∈ l, isSubsetMatch y x = false ∧ isSubsetMatch x y = false) →
    (∀ x ∈ l, ∀ y ∈ l, isSubsetMatch x y = false) →
    l.foldl subsetStep S = S ++ l := by
  intro l
  induction l with
  | nil => intro S _ _; simp
  | cons cur rest ih =>
    intro S hcross hno
    rw [List.foldl_cons]
    have hstep : subsetStep S cur = S ++ [cur] := by
      rw [subsetStep_eq, if_neg, List.filter_eq_self.mpr]
      · intro a ha
        simp [(hcross a ha cur (by simp)).2]
      · intro hc
        obtain ⟨z, hz, hcz⟩ := List.any_eq_true.mp hc
        rw [(hcross z hz cur (by simp)).1] at hcz
        exact Bool.noConfusion hcz
    rw [hstep]
    rw [ih (S ++ [cur]) ?_ ?_]
    · simp
    · intro x hx y hy
      rcases List.mem_append.mp hx with hx | hx
      · exact hcross x hx y (by simp [hy])
      · rw [List.mem_singleton.mp hx]
        exact ⟨hno y (by simp [hy]) cur (by simp), hno cur (by simp) y (by simp [hy])⟩
    · intro x hx y hy
      exact hno x (by simp [hx]) y (by simp [hy])

theorem removeSubsetMatches_id {l : List MatchResult}
    (h : ∀ x ∈ l, ∀ y ∈ l, isSubsetMatch x y = false) : removeSubsetMatches l = l := by
  unfold removeSubsetMatches
  rw [subset_foldl_id l [] (by simp) h]
  rfl

theorem recipGo_id : ∀ (l : List MatchResult) (seen : List String) (acc : List MatchResult),
    (∀ y ∈ l, pairKey y ∉ seen) →
    l.Pairwise (fun a b => pairKey a ≠ pairKey b) →
    recipGo l seen acc = acc ++ l := by
  intro l
  induction l with
  | nil => intro seen acc _ _; simp [recipGo]
  | cons m rest ih =>
    intro seen acc hseen hp
    unfold recipGo
    rw [if_neg (hseen m (by simp))]
    rw [ih (seen ++ [pairKey m]) (acc ++ [m]) ?_ (List.Pairwise.of_cons hp)]
    · simp
    · intro y hy
      rw [List.mem_append]
      rintro (h | h)
      · exact hseen y (by simp [hy]) h
      · exact List.rel_of_pairwise_cons hp hy (List.mem_singleton.mp h).symm

theorem removeReciprocalMatches_id {l : List MatchResult}
    (h : l.Pairwise (fun a b => pairKey a ≠ pairKey b)) :
    removeReciprocalMatches l = l := by
  unfold removeReciprocalMatches
  rw [recipGo_id l [] [] (by simp) h]
  rfl

theorem recipGo_sublist : ∀ (l : List MatchResult) (seen : List String)
    (acc p : List MatchResult), acc.Sublist p → (recipGo l seen acc).Sublist (p ++ l) := by
  intro l
  induction l with
  | nil => intro seen acc p h; simpa [recipGo] using h
  | cons m rest ih =>
    intro seen acc p h
    unfold recipGo
    by_cases hk : pairKey m ∈ seen
    · rw [if_pos hk]
      have := ih seen acc (p ++ [m]) (h.trans (List.sublist_append_left p [m]))
      simpa [List.append_assoc] using this
    · rw [if_neg hk]
      have := ih (seen ++ [pairKey m]) (acc ++ [m]) (p ++ [m])
        (List.Sublist.append h (List.Sublist.refl [m]))
      simpa [List.append_assoc] using this

theorem removeReciprocalMatches_sublist (l : List MatchResult) :
    (removeReciprocalMatches l).Sublist l := by
  simpa using recipGo_sublist l [] [] [] (List.nil_sublist [])

theorem temporal_foldl_id : ∀ (l S : List MatchResult),
    (∀ x ∈ S, ∀ y ∈ l, ¬ ((1:ℚ)/2 < calculatePhotoOverlap y x ∧
      0 < calculateTimeOverlap y x)) →
    l.Pairwise (fun a b => ¬ ((1:ℚ)/2 < calculatePhotoOverlap b a ∧
      0 < calculateTimeOverlap b a)) →
    l.foldl temporalStep S = S ++ l := by
  intro l
  induction l with
  | nil => intro S _ _; simp
  | cons cur rest ih =>
    intro S hcross hp
    rw [List.foldl_cons]
    rw [temporalStep_append (by
      rintro ⟨e, he, hclash⟩
      exact hcross e he cur (by simp) hclash)]
    rw [ih (S ++ [cur]) ?_ (List.Pairwise.of_cons hp)]
    · simp
    · intro x hx y hy
      rcases List.mem_append.mp hx with hx | hx
      · exact hcross x hx y (by simp [hy])
      · rw [List.mem_singleton.mp hx]
        exact List.rel_of_pairwise_cons hp hy

theorem removeTemporalOverlaps_id {l : List MatchResult}
    (h : l.Pairwise (fun a b => ¬ ((1:ℚ)/2 < calculatePhotoOverlap b a ∧
      0 < calculateTimeOverlap b a))) :
    removeTemporalOverlaps l = l := by
  unfold removeTemporalOverlaps
  rw [temporal_foldl_id l [] (by simp) h]
  rfl

theorem temporal_foldl_pairwise : ∀ (l S : List MatchResult),
    S.Pairwise (fun a b => ¬ ((1:ℚ)/2 < calculatePhotoOverlap b a ∧
      0 < calculateTimeOverlap b a)) →
    (l.foldl temporalStep S).Pairwise (fun a b => ¬ ((1:ℚ)/2 < calculatePhotoOverlap b a ∧
      0 < calculateTimeOverlap b a)) := by
  intro l
  induction l with
  | nil => intro S h; exact h
  | cons cur rest ih =>
    intro S h
    rw [List.foldl_cons]
    apply ih
    rw [temporalStep_eq]
    by_cases hc : S.any (fun e => decide ((1:ℚ)/2 < calculatePhotoOverlap cur e ∧
        0 < calculateTimeOverlap cur e))
    · rw [if_pos hc]; exact h
    · rw [if_neg hc]
      rw [List.pairwise_append]
      refine ⟨h, List.pairwise_singleton _ _, ?_⟩
      intro x hx y hy
      rw [List.mem_singleton.mp hy]
      intro hclash
      exact hc (List.any_eq_true.mpr ⟨x, hx, decide_eq_true hclash⟩)

theorem removeTemporalOverlaps_pairwise (l : List MatchResult) :
    (removeTemporalOverlaps l).Pairwise (fun a b =>
      ¬ ((1:ℚ)/2 < calculatePhotoOverlap b a ∧ 0 < calculateTimeOverlap b a)) :=
  temporal_foldl_pairwise l [] List.Pairwise.nil

/-- `deduplicateMatches` leaves a list unchanged when it is sorted by
confidence, free of strict-subset pairs, has pairwise-distinct keys, and has
no pair with both high photo overlap and positive time overlap. -/
theorem deduplicateMatches_id {l : List MatchResult}
    (hsorted : l.Pairwise (fun a b => b.confidence ≤ a.confidence))
    (hnosub : ∀ x ∈ l, ∀ y ∈ l, isSubsetMatch x y = false)
    (hkeys : l.Pairwise (fun a b => pairKey a ≠ pairKey b))
    (hnorel : l.Pairwise (fun a b => ¬ ((1:ℚ)/2 < calculatePhotoOverlap b a ∧
      0 < calculateTimeOverlap b a))) :
    deduplicateMatches l = l := by
  unfold deduplicateMatches
  by_cases hlen : l.length ≤ 1
  · rw [if_pos hlen]
  · rw [if_neg hlen, sortByConfidenceDesc_id hsorted, removeSubsetMatches_id hnosub,
      removeReciprocalMatches_id hkeys, removeTemporalOverlaps_id hnorel]

/-- C3 as amended: the deduplication pass without the clustering stage — the
validity filter followed by `deduplicateMatches` — is idempotent. (The full
`processMatchesWithDeduplication`, which appends the clustering-based
representative selection, is not; see the counterexample.) -/
theorem claim_C3 (ms : List MatchResult) :
    deduplicateMatches (validateAndCleanMatches (deduplicateMatches
      (validateAndCleanMatches ms))) = deduplicateMatches (validateAndCleanMatches ms) := by
  have hval : validateAndCleanMatches (deduplicateMatches (validateAndCleanMatches ms)) =
      deduplicateMatches (validateAndCleanMatches ms) := by
    unfold validateAndCleanMatches
    apply List.filter_eq_self.mpr
    intro y hy
    exact List.of_mem_filter (deduplicateMatches_mem hy)
  rw [hval]
  by_cases hlen : (validateAndCleanMatches ms).length ≤ 1
  · have hv : deduplicateMatches (validateAndCleanMatches ms) = validateAndCleanMatches ms := by
      unfold deduplicateMatches
      rw [if_pos hlen]
    rw [hv, hv]
  · have hout : deduplicateMatches (validateAndCleanMatches ms) =
        removeTemporalOverlaps (removeReciprocalMatches (removeSubsetMatches
          (sortByConfidenceDesc (validateAndCleanMatches ms)))) := by
      unfold deduplicateMatches
      rw [if_neg hlen]
    apply deduplicateMatches_id
    · rw [hout]
      exact List.Pairwise.sublist (removeTemporalOverlaps_sublist _)
        (List.Pairwise.sublist (removeReciprocalMatches_sublist _)
          (List.Pairwise.sublist (removeSubsetMatches_sublist _)
            (sortByConfidenceDesc_sorted _)))
    · rw [hout]
      intro x hx y hy
      exact subset_foldl_nosub _ [] (by simp) x
        (removeReciprocalMatches_mem (removeTemporalOverlaps_mem hx)) y
        (removeReciprocalMatches_mem (removeTemporalOverlaps_mem hy))
    · rw [hout]
      exact List.Pairwise.sublist (removeTemporalOverlaps_sublist _)
        (recipGo_keys_pairwise _ [] [] (by simp) List.Pairwise.nil)
    · rw [hout]
      exact removeTemporalOverlaps_pairwise _

theorem temporalStep_append_of_timeZero {acc : List MatchResult} {cur : MatchResult}
    (h : ∀ e ∈ acc, calculateTimeOverlap cur e = 0) :
    temporalStep acc cur = acc ++ [cur] := by
  apply temporalStep_append
  rintro ⟨e, he, -, hpos⟩
  rw [h e he] at hpos
  exact lt_irrefl 0 hpos

theorem validMatch_mkMatch (i : String) (ph : List Photo) (conf : ℚ)
    (h : ¬(ph.length = 2 ∧ conf < 70)) : validMatch (mkMatch i ph conf) = true := by
  unfold validMatch mkMatch
  rw [if_neg h]
  norm_num

theorem validate_ABD : validateAndCleanMatches [mA, mB, mD] = [mA, mB, mD] := by
  have hA : validMatch mA = true := by
    unfold mA; exact validMatch_mkMatch _ _ _ (by simp)
  have hB : validMatch mB = true := by
    unfold mB; exact validMatch_mkMatch _ _ _ (by simp)
  have hD : validMatch mD = true := by
    unfold mD; exact validMatch_mkMatch _ _ _ (by simp)
  unfold validateAndCleanMatches
  simp [List.filter_cons, hA, hB, hD]

theorem dedup_ABD : deduplicateMatches [mA, mB, mD] = [mA, mB, mD] := by
  have hsort : sortByConfidenceDesc [mA, mB, mD] = [mA, mB, mD] := by decide
  have hsub : removeSubsetMatches [mA, mB, mD] = [mA, mB, mD] := by decide
  have hrec : removeReciprocalMatches [mA, mB, mD] = [mA, mB, mD] := by decide
  have htemp : removeTemporalOverlaps [mA, mB, mD] = [mA, mB, mD] := by
    unfold removeTemporalOverlaps
    rw [List.foldl_cons, List.foldl_cons, List.foldl_cons, List.foldl_nil]
    have e1 : temporalStep [] mA = [mA] := rfl
    have e2 : temporalStep [mA] mB = [mA, mB] := by
      rw [temporalStep_append_of_timeZero (by decide)]
      rfl
    have e3 : temporalStep [mA, mB] mD = [mA, mB, mD] := by
      rw [temporalStep_append_of_timeZero (by decide)]
      rfl
    rw [e1, e2, e3]
  unfold deduplicateMatches
  rw [if_neg (by decide), hsort, hsub, hrec, htemp]

theorem overlap_AB : (3:ℚ)/10 < calculatePhotoOverlap mA mB := by
  have hi : ((photoIdSet mA) ∩ (photoIdSet mB)).card = 2 := by decide
  have hu : ((photoIdSet mA) ∪ (photoIdSet mB)).card = 5 := by decide
  unfold calculatePhotoOverlap
  rw [hi, hu]
  norm_num

theorem overlap_AD : ¬ ((3:ℚ)/10 < calculatePhotoOverlap mA mD) := by
  have hi : ((photoIdSet mA) ∩ (photoIdSet mD)).card = 1 := by decide
  have hu : ((photoIdSet mA) ∪ (photoIdSet mD)).card = 5 := by decide
  unfold calculatePhotoOverlap
  rw [hi, hu]
  norm_num

theorem overlap_BD : (3:ℚ)/10 < calculatePhotoOverlap mB mD := by
  have hi : ((photoIdSet mB) ∩ (photoIdSet mD)).card = 2 := by decide
  have hu : ((photoIdSet mB) ∪ (photoIdSet mD)).card = 5 := by decide
  unfold calculatePhotoOverlap
  rw [hi, hu]
  norm_num

theorem clusters_ABD : identifyPhotoClusters [mA, mB, mD] = [[mA, mB], [mD]] := by
  have hidA : mA.id = "A" := rfl
  have hidB : mB.id = "B" := rfl
  have hidD : mD.id = "D" := rfl
  simp only [identifyPhotoClusters, outerScan, innerScan, hidA, hidB, hidD]
  simp [overlap_AB, overlap_AD]

theorem score_AB : matchScore mA < matchScore mB := by
  norm_num [matchScore, mA, mB, mkMatch, mkPhoto]

theorem score_BD : ¬ (matchScore mB < matchScore mD) := by
  norm_num [matchScore, mB, mD, mkMatch, mkPhoto]

theorem advanced_ABD : advancedDeduplication [mA, mB, mD] = [mB, mD] := by
  have hpick : pickBetter mA mB = mB := by
    unfold pickBetter
    rw [if_pos score_AB]
  have hsort2 : sortByConfidenceDesc [mB, mD] = [mB, mD] := by decide
  unfold advancedDeduplication
  rw [if_neg (by decide), clusters_ABD]
  simp only [List.map_cons, List.map_nil, bestRep, List.foldl_cons, List.foldl_nil, hpick]
  simpa using hsort2

theorem process_ABD : processMatchesWithDeduplication [mA, mB, mD] = [mB, mD] := by
  unfold processMatchesWithDeduplication
  rw [validate_ABD, dedup_ABD, advanced_ABD]

theorem validate_BD : validateAndCleanMatches [mB, mD] = [mB, mD] := by
  have hB : validMatch mB = true := by
    unfold mB; exact validMatch_mkMatch _ _ _ (by simp)
  have hD : validMatch mD = true := by
    unfold mD; exact validMatch_mkMatch _ _ _ (by simp)
  unfold validateAndCleanMatches
  simp [List.filter_cons, hB, hD]

theorem dedup_BD : deduplicateMatches [mB, mD] = [mB, mD] := by
  have hsort : sortByConfidenceDesc [mB, mD] = [mB, mD] := by decide
  have hsub : removeSubsetMatches [mB, mD] = [mB, mD] := by decide
  have hrec : removeReciprocalMatches [mB, mD] = [mB, mD] := by decide
  have htemp : removeTemporalOverlaps [mB, mD] = [mB, mD] := by
    unfold removeTemporalOverlaps
    rw [List.foldl_cons, List.foldl_cons, List.foldl_nil]
    have e1 : temporalStep [] mB = [mB] := rfl
    have e2 : temporalStep [mB] mD = [mB, mD] := by
      rw [temporalStep_append_of_timeZero (by decide)]
      rfl
    rw [e1, e2]
  unfold deduplicateMatches
  rw [if_neg (by decide), hsort, hsub, hrec, htemp]

theorem clusters_BD : identifyPhotoClusters [mB, mD] = [[mB, mD]] := by
  have hidB : mB.id = "B" := rfl
  have hidD : mD.id = "D" := rfl
  simp only [identifyPhotoClusters, outerScan, innerScan, hidB, hidD]
  simp [overlap_BD]

theorem advanced_BD : advancedDeduplication [mB, mD] = [mB] := by
  have hpick : pickBetter mB mD = mB := by
    unfold pickBetter
    rw [if_neg score_BD]
  unfold advancedDeduplication
  rw [if_neg (by decide), clusters_BD]
  simp [bestRep, hpick, sortByConfidenceDesc, insertConfDesc]

theorem process_BD : processMatchesWithDeduplication [mB, mD] = [mB] := by
  unfold processMatchesWithDeduplication
  rw [validate_BD, dedup_BD, advanced_BD]

/-- C3 counterexample: running the full pass twice on three overlapping
candidates does not reproduce the first run's output: the clustering stage
elects representative mB of the cluster seeded by mA, and a second run then
clusters mB with mD (their overlap is 2/5 > 0.3) and drops mD. -/
theorem claim_C3_counterexample :
    processMatchesWithDeduplication (processMatchesWithDeduplication [mA, mB, mD]) ≠
      processMatchesWithDeduplication [mA, mB, mD] := by
  rw [process_ABD, process_BD]
  decide

end PhotoDupeDrop
